import Mathlib

set_option autoImplicit false

/-!
Verification development for the zs-retriever core: a shallow embedding of
the chunking engine (StructureFixed / Semantic / Hybrid policies), the
idempotent ingestion orchestrator, the reference vector-store adapter, and
the recall-plus-rerank search pipeline, together with theorems settling the
frozen behavioural claims about them.

Modelling conventions, used throughout:
- Python `str` is modelled by `String`; character-level scanning works on
  `String.data : List Char`.  Only ASCII whitespace classes are modelled,
  matching the inputs the code handles.
- Python `float` is modelled by `ℚ` where only arithmetic matters, and by
  the inductive type `Flt` (finite rational, NaN, or signed infinity) where
  the code inspects finiteness (`math.isfinite`).  `math.sqrt`, an external
  library function, is an abstract parameter `sqrtQ : ℚ → ℚ`.
- `uuid.uuid4()` (external randomness) is modelled as a deterministic
  fresh-id supply: functions thread a `Nat` counter and ids are `Nat`.
- `hashlib.sha256(...).hexdigest()` (external library) is an abstract
  deterministic parameter `hash : List Nat → String` of the environment.
- The SQLAlchemy session (external storage mechanics) is modelled by
  explicit record lists with commit/rollback semantics: rows added during a
  run become visible only when the final commit succeeds; `db.rollback()`
  discards them.  The vector store is not part of the transaction, exactly
  as in the source.
-/

/-! ## Token estimator (services/indexing/chunking/base.py, estimate_tokens) -/

/-- Model of `estimate_tokens`: `max(1, len(text) // 4)`. -/
def estimate_tokens (s : String) : Nat := max 1 (s.length / 4)

/-! ## Character-level string utilities used by the chunking code -/

/-- ASCII part of Python str whitespace (the regex class backslash-s and
the default separators of str.split and str.strip). -/
def isPySpace (c : Char) : Bool :=
  c = ' ' || c = '\t' || c = '\n' || c = '\r' || c = '\x0b' || c = '\x0c'

/-- Sentence-terminal punctuation of the lookbehind class in `_sentences`. -/
def isTerminal (c : Char) : Bool := c = '.' || c = '!' || c = '?'

/-- Whether the previously scanned character (head of the reversed current
segment) is sentence-terminal punctuation. -/
def headTerminal : List Char → Bool
  | p :: _ => isTerminal p
  | [] => false

/-- Scanner for `re.split` with pattern lookbehind-terminal-then-whitespace:
split the text at every maximal whitespace run that is immediately preceded
by one of `.`, `!`, `?`, dropping the whitespace run.  `cur` is the current
segment in reverse; `skipping` is true while consuming a separator run. -/
def sentencesAux : List Char → List Char → Bool → List (List Char)
  | [], cur, _ => [cur.reverse]
  | c :: rest, cur, skipping =>
    if skipping && isPySpace c then
      sentencesAux rest cur skipping
    else if !skipping && isPySpace c && headTerminal cur then
      cur.reverse :: sentencesAux rest [] true
    else
      sentencesAux rest (c :: cur) false

/-- Model of `_sentences` (structure_fixed.py): split after terminal
punctuation followed by whitespace.  `re.split` always returns a non-empty
list, so the `or [text]` fallback of the source never fires. -/
def sentences (text : String) : List String :=
  (sentencesAux text.data [] false).map (fun l => String.mk l)

/-- Word scanner for Python `str.split()` with no arguments: maximal
non-whitespace runs, no empty words. -/
def pyWordsAux : List Char → List Char → List (List Char)
  | [], cur => if cur.isEmpty then [] else [cur.reverse]
  | c :: rest, cur =>
    if isPySpace c then
      if cur.isEmpty then pyWordsAux rest [] else cur.reverse :: pyWordsAux rest []
    else pyWordsAux rest (c :: cur)

/-- Model of Python `s.split()` (used for the word-count seq increment). -/
def pySplitWs (s : String) : List String := (pyWordsAux s.data []).map String.mk

/-- Model of Python `s.strip()`: drop whitespace from both ends. -/
def pyStrip (s : String) : String :=
  String.mk (((s.data.dropWhile isPySpace).reverse.dropWhile isPySpace).reverse)

/-- Scanner for Python `s.split("\n\n")`: split at each non-overlapping
occurrence of two consecutive newlines, scanning left to right. -/
def splitNNAux : List Char → List Char → List (List Char)
  | '\n' :: '\n' :: rest, cur => cur.reverse :: splitNNAux rest []
  | c :: rest, cur => splitNNAux rest (c :: cur)
  | [], cur => [cur.reverse]

/-- Model of Python `s.split("\n\n")` (paragraph split in semantic.py). -/
def splitNN (s : String) : List String := (splitNNAux s.data []).map String.mk

/-- Model of `" ".join(acc)`. -/
def joinSp (acc : List String) : String := String.intercalate " " acc

/-! ## Location and block model (services/parsing/base.py)

`Loc.to_dict()` drops keys whose value is `None`, so the dict form of a
location is isomorphic to this record of `Option` fields; the model uses one
type for both. -/

/-- Model of `Loc`: page number, slide number, or heading path. -/
structure Loc where
  pageNum : Option Nat := none
  slideNum : Option Nat := none
  headingPath : Option (List String) := none
deriving DecidableEq, Repr

/-- Model of the `Block` variants `TextBlock`, `TableBlock`, `ImageBlock`.
Image bytes (`bytes`) are a list of byte values. -/
inductive Block where
  | text (content : String) (loc : Loc)
  | table (content : String) (loc : Loc)
  | image (imageBytes : List Nat) (loc : Loc)
deriving DecidableEq, Repr

/-- Location of a block. -/
def Block.loc : Block → Loc
  | .text _ l => l
  | .table _ l => l
  | .image _ l => l

/-- Model of `ParentNode` (chunking/base.py); `parentId` is the threaded
fresh-id in place of `uuid.uuid4()`. -/
structure ParentNode where
  parentId : Nat
  parentType : String
  loc : Loc
  parentText : String
  seqStart : Nat
  seqEnd : Nat
  blocks : List Block
deriving DecidableEq, Repr

/-- Model of `ChildChunk` (chunking/base.py).  The `boundary_signals`
diagnostic dict is modelled by its `reason` entry, the only key common to
all producers. -/
structure ChildChunk where
  chunkId : Nat
  parentId : Nat
  chunkType : String
  chunkText : String
  embeddingText : String
  seqStart : Nat
  seqEnd : Nat
  loc : Loc
  chunkPolicy : String
  boundaryReason : String
  policyVersion : String
deriving DecidableEq, Repr

/-! ## StructureFixed policy (services/indexing/chunking/structure_fixed.py) -/

/-- Model of `_loc_key`: the structural grouping key.  Python's
`x or 0` maps both `None` and `0` to `0`, which is `Option.getD` here since
page numbers are naturals.  The `undef` key models the implicit `None`
returned for an unknown source type (unreachable from the orchestrator). -/
inductive BKey where
  | page (n : Nat)
  | slide (n : Nat)
  | section (hp : List String)
  | unknownKey
deriving DecidableEq, Repr

/-- Grouping key of a block for a given source type. -/
def locKey (sourceType : String) (b : Block) : BKey :=
  if sourceType = "pdf" then .page ((b.loc.pageNum).getD 0)
  else if sourceType = "pptx" then .slide ((b.loc.slideNum).getD 0)
  else if sourceType = "docx" then .section ((b.loc.headingPath).getD [])
  else .unknownKey

/-- Python lexicographic tuple-of-strings comparison (for heading paths). -/
def hpLe : List String → List String → Bool
  | [], _ => true
  | _ :: _, [] => false
  | a :: as, b :: bs => if a = b then hpLe as bs else decide (a < b)

/-- Ordering on grouping keys, as Python's `sorted` compares them.  Within
one call all keys share a constructor; mixed cases are unreachable. -/
def bkeyLe : BKey → BKey → Bool
  | .page a, .page b => a ≤ b
  | .slide a, .slide b => a ≤ b
  | .section a, .section b => hpLe a b
  | _, _ => true

/-- Grouping of consecutive equal elements, as `itertools.groupby` over the
sorted block list.  `run` is the current group in reverse order. -/
def groupRunsAux (eq : Block → Block → Bool) : List Block → Block → List Block → List (List Block)
  | [], _, run => [run.reverse]
  | b :: rest, cur, run =>
    if eq cur b then groupRunsAux eq rest b (b :: run)
    else run.reverse :: groupRunsAux eq rest b [b]

/-- Group a list into maximal runs of key-equal consecutive elements. -/
def groupRuns (eq : Block → Block → Bool) : List Block → List (List Block)
  | [] => []
  | b :: rest => groupRunsAux eq rest b [b]

/-- Parent-construction fold: one parent per group, sequence positions
assigned cumulatively, ids threaded. -/
def buildParentsGo (parentType : String) : List (List Block) → Nat → Nat → List ParentNode × Nat
  | [], n, _ => ([], n)
  | blist :: rest, n, seq =>
    let textParts := blist.filterMap (fun b => match b with
      | .text c _ => some c
      | .table c _ => some c
      | .image _ _ => none)
    let ptext := String.intercalate "\n\n" textParts
    let p : ParentNode :=
      { parentId := n, parentType := parentType,
        loc := ((blist.head?).map Block.loc).getD {},
        parentText := ptext, seqStart := seq, seqEnd := seq + blist.length - 1,
        blocks := blist }
    let (ps, nFin) := buildParentsGo parentType rest (n + 1) (seq + blist.length)
    (p :: ps, nFin)

/-- Model of `StructureFixedChunkingPolicy.build_parents`: stable-sort the
blocks by structural key (Python's Timsort is stable, and a stable sort is
uniquely determined by the preorder, so insertion sort is faithful), group
consecutive key-equal blocks, and build one parent per group. -/
def buildParentsSF (blocks : List Block) (sourceType : String) (n0 : Nat) :
    List ParentNode × Nat :=
  let parentType :=
    if sourceType = "pdf" then "page"
    else if sourceType = "pptx" then "slide" else "section"
  let sorted := blocks.insertionSort
    (fun a b => bkeyLe (locKey sourceType a) (locKey sourceType b) = true)
  let groups := groupRuns (fun a b => locKey sourceType a == locKey sourceType b) sorted
  buildParentsGo parentType groups n0 0

/-- A flushed buffer of the packing loop: the sentence list `sents` is the
buffer `acc` at flush time (its joined text is the stored chunk text), with
the stored sequence range. -/
structure PackChunk where
  sents : List String
  seqStart : Nat
  seqEnd : Nat
deriving DecidableEq, Repr

/-- Chunk text of a flushed buffer, `" ".join(acc)` in the source. -/
def PackChunk.text (pc : PackChunk) : String := joinSp pc.sents

/-- Overlap-seeding scan: walk the reversed buffer, keeping the longest
trailing run of sentences whose cumulative estimated tokens stay within
`overlapTokens`, stopping at the first sentence that does not fit. -/
def overlapAux (overlapTokens : Nat) : List String → List String → Nat → List String
  | [], ov, _ => ov
  | s :: rest, ov, tks =>
    if tks + estimate_tokens s ≤ overlapTokens then
      overlapAux overlapTokens rest (s :: ov) (tks + estimate_tokens s)
    else ov

/-- Overlap seed of a buffer (the loop over `reversed(acc)` in the source). -/
def overlapOf (overlapTokens : Nat) (acc : List String) : List String :=
  overlapAux overlapTokens acc.reverse [] 0

/-- State of the sentence-packing loop in `build_children`: emitted chunks,
current buffer, its tracked token sum, and the local `seq` counter. -/
structure PackState where
  chunks : List PackChunk
  acc : List String
  accTokens : Nat
  seq : Nat
deriving Repr

/-- One iteration of the packing loop over the next sentence.  The overflow
branch flushes the buffer with the local sequence counter and does not add
the triggering sentence to the reseeded buffer (exactly as in the source);
the append branch flushes at `target` with the parent's sequence range. -/
def packStep (target hardMax overlap pStart pEnd : Nat) (st : PackState) (sent : String) :
    PackState :=
  let stk := estimate_tokens sent
  if st.accTokens + stk > hardMax && !st.acc.isEmpty then
    let ctext := joinSp st.acc
    let ov := overlapOf overlap st.acc
    { chunks := st.chunks ++ [⟨st.acc, st.seq, st.seq + st.acc.length - 1⟩],
      acc := ov, accTokens := (ov.map estimate_tokens).sum,
      seq := st.seq + (pySplitWs ctext).length }
  else
    let acc1 := st.acc ++ [sent]
    let tks1 := st.accTokens + stk
    if tks1 ≥ target then
      let ov := overlapOf overlap acc1
      { chunks := st.chunks ++ [⟨acc1, pStart, pEnd⟩],
        acc := ov, accTokens := (ov.map estimate_tokens).sum, seq := st.seq }
    else
      { st with acc := acc1, accTokens := tks1 }

/-- The whole packing loop plus the final flush of a non-empty buffer. -/
def packSentences (target hardMax overlap pStart pEnd : Nat) (sents : List String) :
    List PackChunk :=
  let st := sents.foldl (packStep target hardMax overlap pStart pEnd) ⟨[], [], 0, 0⟩
  if st.acc.isEmpty then st.chunks else st.chunks ++ [⟨st.acc, pStart, pEnd⟩]

/-- An emitted pre-merge chunk as the merge pass sees it: the tuple
`(text, start, end)` of the source. -/
structure Piece where
  text : String
  seqStart : Nat
  seqEnd : Nat
deriving DecidableEq, Repr

/-- Accumulating loop of `_merge_small_chunks`: merge the next piece into
the accumulator when the combination stays within `maxT` and either side is
below `minT`; otherwise emit the accumulator and restart from the piece. -/
def mergeLoop (minT maxT : Nat) : List Piece → String → Nat → Nat → List Piece
  | [], accText, accStart, accEnd =>
    if accText = "" then [] else [⟨accText, accStart, accEnd⟩]
  | p :: rest, accText, accStart, accEnd =>
    let tks := estimate_tokens p.text
    if accText ≠ "" && decide (estimate_tokens accText + tks ≤ maxT) &&
        (decide (estimate_tokens accText < minT) || decide (tks < minT)) then
      mergeLoop minT maxT rest (pyStrip (accText ++ " " ++ p.text)) accStart p.seqEnd
    else
      (if accText = "" then [] else [⟨accText, accStart, accEnd⟩]) ++
        mergeLoop minT maxT rest p.text p.seqStart p.seqEnd

/-- Model of `_merge_small_chunks`. -/
def mergeSmallChunks (chunks : List Piece) (minT maxT : Nat) : List Piece :=
  match chunks with
  | [] => []
  | c :: _ => mergeLoop minT maxT chunks "" c.seqStart c.seqEnd

/-- Table chunks and collected text contents from the block scan at the top
of `build_children`: table blocks become standalone chunks in block order,
text contents are collected in block order, image blocks are skipped. -/
def tableScan (policyName policyVersion : String) (parent : ParentNode) :
    List Block → Nat → (List ChildChunk × List String × Nat)
  | [], n => ([], [], n)
  | b :: rest, n =>
    match b with
    | .table c _ =>
      let (tcs, texts, nFin) := tableScan policyName policyVersion parent rest (n + 1)
      (({ chunkId := n, parentId := parent.parentId, chunkType := "table",
          chunkText := c, embeddingText := c,
          seqStart := parent.seqStart, seqEnd := parent.seqEnd,
          loc := parent.loc, chunkPolicy := policyName,
          boundaryReason := "table_block", policyVersion := policyVersion } : ChildChunk)
        :: tcs, texts, nFin)
    | .text c _ =>
      let (tcs, texts, nFin) := tableScan policyName policyVersion parent rest n
      (tcs, c :: texts, nFin)
    | .image _ _ =>
      let (tcs, texts, nFin) := tableScan policyName policyVersion parent rest n
      (tcs, texts, nFin)

/-- Turn merged pieces into text chunks with threaded ids. -/
def mkTextChunks (policyName policyVersion reason : String) (parent : ParentNode) :
    List Piece → Nat → List ChildChunk × Nat
  | [], n => ([], n)
  | p :: rest, n =>
    let (cs, nFin) := mkTextChunks policyName policyVersion reason parent rest (n + 1)
    (({ chunkId := n, parentId := parent.parentId, chunkType := "text",
        chunkText := p.text, embeddingText := p.text,
        seqStart := p.seqStart, seqEnd := p.seqEnd,
        loc := parent.loc, chunkPolicy := policyName,
        boundaryReason := reason, policyVersion := policyVersion } : ChildChunk) :: cs,
      nFin)

/-- Model of `StructureFixedChunkingPolicy.build_children`: table blocks
become single chunks, the concatenated text is sentence-split, greedily
packed with overlap seeding, and the emitted chunks pass through the
small-chunk merge. -/
def buildChildrenSF (target hardMax overlap : Nat) (parent : ParentNode) (n0 : Nat) :
    List ChildChunk × Nat :=
  let scan := tableScan "structure_fixed" "1.0" parent parent.blocks n0
  let tableChunks := scan.1
  let textContents := scan.2.1
  let n1 := scan.2.2
  let text := String.intercalate "\n\n" textContents
  if pyStrip text = "" then (tableChunks, n1)
  else
    let packed := packSentences target hardMax overlap parent.seqStart parent.seqEnd
      (sentences text)
    let merged := mergeSmallChunks
      (packed.map (fun pc => ⟨pc.text, pc.seqStart, pc.seqEnd⟩)) 50 hardMax
    let made := mkTextChunks "structure_fixed" "1.0" "structure_fixed" parent merged n1
    (tableChunks ++ made.1, made.2)

/-! ## Semantic policy (services/indexing/chunking/semantic.py) -/

/-- Shared cosine-similarity formula of semantic.py `_cosine_sim` and
vector_store_default.py `_cosine_similarity`: dot product over the product
of square-root norms, each norm replaced by 1e-10 when it is 0 (Python
`or 1e-10` on a non-negative float).  `sqrtQ` abstracts the external
`math.sqrt`.  The store version additionally clamps non-finite results to
0; over `ℚ` every value is finite, so that clamp is the identity here. -/
def cosineSimQ (sqrtQ : ℚ → ℚ) (a b : List ℚ) : ℚ :=
  let dot := ((a.zip b).map (fun p => p.1 * p.2)).sum
  let na0 := sqrtQ ((a.map (fun x => x * x)).sum)
  let nb0 := sqrtQ ((b.map (fun x => x * x)).sum)
  let na := if na0 = 0 then (1 : ℚ) / 10 ^ 10 else na0
  let nb := if nb0 = 0 then (1 : ℚ) / 10 ^ 10 else nb0
  dot / (na * nb)

/-- Paragraph collection of `SemanticChunkingPolicy.build_children`: whole
tables are one paragraph unit; text blocks are blank-line split, keeping the
stripped non-empty paragraphs. -/
def collectParagraphs : List Block → List String
  | [] => []
  | .table c _ :: rest => c :: collectParagraphs rest
  | .text c _ :: rest =>
    ((splitNN c).filterMap (fun p => if pyStrip p = "" then none else some (pyStrip p))) ++
      collectParagraphs rest
  | .image _ _ :: rest => collectParagraphs rest

/-- The similarity walk of semantic.py lines 83-95 over the remaining
paragraphs, each paired with the embedding of its predecessor and its own:
start a new group when similarity drops below the threshold, and flush a
group as soon as its token sum exceeds the hard maximum. -/
def semWalk (sqrtQ : ℚ → ℚ) (threshold : ℚ) (hardMax : Nat) :
    List (String × List ℚ × List ℚ) → List (List String) → List String →
    List (List String)
  | [], chunks, current => if current.isEmpty then chunks else chunks ++ [current]
  | (p, vprev, vcur) :: rest, chunks, current =>
    let sim := cosineSimQ sqrtQ vprev vcur
    let next :=
      if decide (sim < threshold) && !current.isEmpty then (chunks ++ [current], [p])
      else (chunks, current ++ [p])
    let total := ((next.2).map estimate_tokens).sum
    if total > hardMax && !(next.2).isEmpty then
      semWalk sqrtQ threshold hardMax rest (next.1 ++ [next.2]) []
    else
      semWalk sqrtQ threshold hardMax rest next.1 next.2

/-- Chunk assembly per similarity group: groups whose joined text exceeds
the hard maximum are re-split by StructureFixed on a synthetic single-block
parent carrying the group text; others become one semantic chunk. -/
def semBuildGroups (hardMax : Nat) (parent : ParentNode) :
    List (List String) → Nat → List ChildChunk × Nat
  | [], n => ([], n)
  | g :: rest, n =>
    let text := String.intercalate "\n\n" g
    if estimate_tokens text > hardMax then
      let fake : ParentNode :=
        { parent with parentText := text, blocks := [.text text parent.loc] }
      let (cs, n1) := buildChildrenSF 280 hardMax 60 fake n
      let (csRest, n2) := semBuildGroups hardMax parent rest n1
      (cs ++ csRest, n2)
    else
      let (csRest, n2) := semBuildGroups hardMax parent rest (n + 1)
      (({ chunkId := n, parentId := parent.parentId, chunkType := "text",
          chunkText := text, embeddingText := text,
          seqStart := parent.seqStart, seqEnd := parent.seqEnd,
          loc := parent.loc, chunkPolicy := "semantic",
          boundaryReason := "semantic", policyVersion := "1.0" } : ChildChunk) :: csRest,
        n2)

/-- Model of `SemanticChunkingPolicy.build_children`.  `embed` abstracts the
embedding capability and is assumed to return one vector per input text (the
capability contract); zero paragraphs yield no children; a single paragraph
is emitted whole or, when over the hard maximum, delegated to StructureFixed
on the original parent. -/
def buildChildrenSem (sqrtQ : ℚ → ℚ) (embed : List String → List (List ℚ))
    (threshold : ℚ) (hardMax : Nat) (parent : ParentNode) (n0 : Nat) :
    List ChildChunk × Nat :=
  let paragraphs := collectParagraphs parent.blocks
  match paragraphs with
  | [] => ([], n0)
  | [text] =>
    if estimate_tokens text > hardMax then
      buildChildrenSF 280 hardMax 60 parent n0
    else
      (([{ chunkId := n0, parentId := parent.parentId, chunkType := "text",
           chunkText := text, embeddingText := text,
           seqStart := parent.seqStart, seqEnd := parent.seqEnd,
           loc := parent.loc, chunkPolicy := "semantic",
           boundaryReason := "single_paragraph", policyVersion := "1.0" }] :
         List ChildChunk), n0 + 1)
  | p0 :: pRest =>
    let vecs := embed paragraphs
    let triples := pRest.zip (vecs.zip (vecs.drop 1))
    let groups := semWalk sqrtQ threshold hardMax
      (triples.map (fun t => (t.1, t.2.1, t.2.2))) [] [p0]
    semBuildGroups hardMax parent groups n0

/-! ## Hybrid policy (services/indexing/chunking/hybrid.py) -/

/-- Model of `HybridChunkingPolicy.build_children`: delegate to Semantic
(threshold as configured, default hard maximum 380) when the parent text's
estimated tokens reach `semantic_enabled_min_tokens`, else to StructureFixed
with its default parameters (280, 60, 380). -/
def buildChildrenHy (sqrtQ : ℚ → ℚ) (embed : List String → List (List ℚ))
    (semanticEnabledMinTokens : Nat) (semanticThreshold : ℚ)
    (parent : ParentNode) (n0 : Nat) : List ChildChunk × Nat :=
  if estimate_tokens parent.parentText ≥ semanticEnabledMinTokens then
    buildChildrenSem sqrtQ embed semanticThreshold 380 parent n0
  else
    buildChildrenSF 280 380 60 parent n0

/-! ## Vector store reference adapter (services/providers/vector_store_default.py)

The JSON snapshotting after each mutation (`_save` / `_load`) is durable
storage mechanics outside the model; the in-memory `dict` is modelled as an
insertion-ordered association list. -/

/-- Model of `VectorRecord` (providers/base.py); vector components are
rationals in place of floats. -/
structure VRecord where
  chunkId : String
  vector : List ℚ
  projectId : String
  fileId : String
  parentId : String
  chunkType : String
  chunkText : String
  loc : Loc
  indexVersion : String
  docHash : String
  isDeleted : Bool := false
deriving DecidableEq, Repr

/-- The dict stored per key in `upsert` (all fields except the deleted
flag). -/
structure StoredRec where
  chunkId : String
  vector : List ℚ
  projectId : String
  fileId : String
  parentId : String
  chunkType : String
  chunkText : String
  loc : Loc
  indexVersion : String
  docHash : String
deriving DecidableEq, Repr

/-- The in-memory store: an insertion-ordered key-to-record map. -/
abbrev Store := List (String × StoredRec)

/-- Model of `_key`: the project, version and chunk id joined by colons. -/
def mkKey (projectId indexVersion chunkId : String) : String :=
  projectId ++ ":" ++ indexVersion ++ ":" ++ chunkId

/-- Python dict update: replace in place when the key exists, else append. -/
def storePut (st : Store) (k : String) (r : StoredRec) : Store :=
  if st.any (fun kv => kv.1 = k) then
    st.map (fun kv => if kv.1 = k then (k, r) else kv)
  else st ++ [(k, r)]

/-- The stored dict of a record. -/
def storedOf (r : VRecord) : StoredRec :=
  { chunkId := r.chunkId, vector := r.vector, projectId := r.projectId,
    fileId := r.fileId, parentId := r.parentId, chunkType := r.chunkType,
    chunkText := r.chunkText, loc := r.loc, indexVersion := r.indexVersion,
    docHash := r.docHash }

/-- Model of `DefaultVectorStoreAdapter.upsert`: write each non-deleted
record under its key. -/
def vsUpsert (st : Store) (records : List VRecord) : Store :=
  records.foldl
    (fun s r =>
      if r.isDeleted then s
      else storePut s (mkKey r.projectId r.indexVersion r.chunkId) (storedOf r))
    st

/-- String-valued field lookup on a stored record, as `rec.get(fk)` for the
filterable metadata fields (the `vector` and `loc` entries hold non-string
values and are not modelled as filter targets; an unknown key yields
nothing, so such a filter never matches). -/
def fieldGet (r : StoredRec) (k : String) : Option String :=
  if k = "chunk_id" then some r.chunkId
  else if k = "project_id" then some r.projectId
  else if k = "file_id" then some r.fileId
  else if k = "parent_id" then some r.parentId
  else if k = "chunk_type" then some r.chunkType
  else if k = "chunk_text" then some r.chunkText
  else if k = "index_version" then some r.indexVersion
  else if k = "doc_hash" then some r.docHash
  else none

/-- Filter conjunction of `search`: every supplied filter key must look up
to exactly the supplied value (an absent key never matches). -/
def filtersMatch (r : StoredRec) (filters : List (String × String)) : Bool :=
  filters.all (fun fv => fieldGet r fv.1 == some fv.2)

/-- Model of `SearchHit` (providers/base.py) as returned by the reference
adapter, with rational scores. -/
structure SearchHitM where
  chunkId : String
  score : ℚ
  projectId : String
  fileId : String
  parentId : String
  chunkType : String
  chunkText : String
  loc : Loc
  indexVersion : String
  docHash : String
deriving DecidableEq, Repr

/-- The `SearchHit(...)` constructor call on a scored record. -/
def mkHit (sr : ℚ × StoredRec) : SearchHitM :=
  { chunkId := sr.2.chunkId, score := sr.1, projectId := sr.2.projectId,
    fileId := sr.2.fileId, parentId := sr.2.parentId,
    chunkType := sr.2.chunkType, chunkText := sr.2.chunkText,
    loc := sr.2.loc, indexVersion := sr.2.indexVersion,
    docHash := sr.2.docHash }

/-- Model of `DefaultVectorStoreAdapter.search`: linear scan of keys with
the requested project-colon-version-colon prefix, filter check, cosine
scoring, stable sort by descending similarity (Python's stable Timsort on
the negated score is modelled by insertion sort, which computes the same
unique stable result), and truncation to `top_k` (taken as a natural). -/
def vsSearch (sqrtQ : ℚ → ℚ) (st : Store) (vector : List ℚ) (topK : Nat)
    (projectId indexVersion : String) (filters : List (String × String)) :
    List SearchHitM :=
  let pre := projectId ++ ":" ++ indexVersion ++ ":"
  let cands := st.filter (fun kv => pre.data.isPrefixOf kv.1.data && filtersMatch kv.2 filters)
  let scored := cands.map (fun kv => (cosineSimQ sqrtQ vector kv.2.vector, kv.2))
  let sorted := scored.insertionSort (fun a b => b.1 ≤ a.1)
  (sorted.take topK).map mkHit

/-! ## Float model for finiteness handling (services/retrieval/search.py) -/

/-- Model of a Python float as consumed by the search pipeline: a finite
rational, NaN, or a signed infinity.  Capability providers may return any
of these. -/
inductive Flt where
  | fin (q : ℚ)
  | nan
  | inf
  | ninf
deriving DecidableEq, Repr

/-- Model of `math.isfinite`. -/
def Flt.isFinite : Flt → Bool
  | .fin _ => true
  | _ => false

/-- Model of `_safe_float` (search.py): keep finite values, clamp NaN and
the infinities to 0.0. -/
def safeFloat (v : Flt) : Flt := if v.isFinite then v else .fin 0

/-! ## Search pipeline (services/retrieval/search.py) -/

/-- The adapter `SearchHit` as the pipeline consumes it, with a possibly
non-finite score (the vector-store capability is behind an interface, so an
adversarial adapter may return anything). -/
structure ProviderHit where
  chunkId : String
  score : Flt
  projectId : String
  fileId : String
  parentId : String
  chunkType : String
  chunkText : String
  loc : Loc
  indexVersion : String
  docHash : String
deriving DecidableEq, Repr

/-- Model of `RecallHit`. -/
structure RecallHitM where
  chunkId : String
  score : Flt
  chunkText : String
  parentId : String
  fileId : String
  chunkType : String
  loc : Loc
deriving DecidableEq, Repr

/-- Model of `RerankHit`. -/
structure RerankHitM where
  chunkId : String
  score : Flt
  chunkText : String
  parentId : String
  fileId : String
  chunkType : String
  loc : Loc
deriving DecidableEq, Repr

/-- Model of `RerankResult` (providers/base.py): an index into the supplied
candidate list plus a relevance score.  Python also accepts negative
indices (wrap-around); the model restricts to naturals, and an index at or
past the candidate count raises IndexError in the source, modelled as no
result below. -/
structure RerankResultM where
  index : Nat
  score : Flt
  text : String
deriving DecidableEq, Repr

/-- Model of `SearchResult`.  Timing values are integers after the `int(v)`
conversion of finite clock differences; the trace id and debug payload are
reduced to an optional note. -/
structure SearchResultM where
  «recall» : List RecallHitM
  rerank : List RerankHitM
  timingsMs : List (String × Int)
  debugNote : Option String
deriving DecidableEq, Repr

/-- Placeholder recall hit for the total-function list lookup; irrelevant
whenever the rerank index is in bounds. -/
def defaultRecallHit : RecallHitM :=
  { chunkId := "", score := .fin 0, chunkText := "", parentId := "",
    fileId := "", chunkType := "", loc := {} }

/-- The `RecallHit(...)` constructor call of the recall stage: copy the
adapter hit's metadata and clamp the score. -/
def toRecallHit (h : ProviderHit) : RecallHitM :=
  { chunkId := h.chunkId, score := safeFloat h.score, chunkText := h.chunkText,
    parentId := h.parentId, fileId := h.fileId, chunkType := h.chunkType,
    loc := h.loc }

/-- The `RerankHit(...)` constructor call of the rerank stage: the looked-up
recall hit's metadata with the rerank score. -/
def mkRerankFromRecall (r : RecallHitM) (score : Flt) : RerankHitM :=
  { chunkId := r.chunkId, score := score, chunkText := r.chunkText,
    parentId := r.parentId, fileId := r.fileId, chunkType := r.chunkType,
    loc := r.loc }

/-- Model of `search` (search.py) after query embedding: `activeVersion` is
the project's currently active version, `indexVersionArg` the caller's
explicit version, `storeHits` the vector-store response for this query,
`rerankFn` the rerank capability applied to the ordered candidate texts,
and `tE`, `tR`, `tRk` the measured stage timings.  Returns `none` exactly
when the rerank capability references an out-of-range candidate index, in
which case the source raises IndexError and no `SearchResult` is built. -/
def runSearch (activeVersion : Option String) (indexVersionArg : Option String)
    (storeHits : List ProviderHit) (rerankFn : List String → List RerankResultM)
    (debug : Bool) (tE tR tRk : Int) : Option SearchResultM :=
  let resolved := match indexVersionArg with
    | some v => some v
    | none => activeVersion
  match resolved with
  | none =>
    some { «recall» := [], rerank := [],
           timingsMs := [("embed", 0), ("recall", 0), ("rerank", 0)],
           debugNote := if debug then some "No index version" else none }
  | some v =>
    let recallL := storeHits.map toRecallHit
    let timings := [("embed", tE), ("recall", tR), ("rerank", tRk)]
    if recallL.isEmpty then
      some { «recall» := recallL, rerank := [], timingsMs := timings,
             debugNote := if debug then some v else none }
    else
      let entries := rerankFn (recallL.map (fun r => r.chunkText))
      if entries.all (fun e => e.index < recallL.length) then
        some { «recall» := recallL,
               rerank := entries.map (fun e =>
                 mkRerankFromRecall (recallL.getD e.index defaultRecallHit)
                   (safeFloat e.score)),
               timingsMs := timings,
               debugNote := if debug then some v else none }
      else none

/-! ## Ingestion orchestrator (services/ingestion/orchestrator.py) and the
image annex (services/ingestion/image_pipeline.py) -/

/-- Model of `VisionOutput` (providers/base.py). -/
structure VisionOutputM where
  summary : String
  bullets : List String
  entities : List String
  chartReadout : Option String := none
deriving DecidableEq, Repr

/-- Model of `_loc_matches`: every populated dimension of the block
location must equal the parent location's value (an absent parent heading
path counts as the empty path). -/
def locMatches (blockLoc : Loc) (parentLoc : Loc) : Bool :=
  (match blockLoc.pageNum with
   | some n => parentLoc.pageNum == some n
   | none => true) &&
  (match blockLoc.slideNum with
   | some n => parentLoc.slideNum == some n
   | none => true) &&
  (match blockLoc.headingPath with
   | some hp => (parentLoc.headingPath).getD [] == hp
   | none => true)

/-- Model of `find_parent_for_image`: the first parent whose location
matches, if any. -/
def findParentForImage (blockLoc : Loc) (parents : List ParentNode) : Option Nat :=
  (parents.find? (fun p => locMatches blockLoc p.loc)).map (fun p => p.parentId)

/-- Model of database `Parent` rows (db/models.py). -/
structure ParentRow where
  parentId : Nat
  projectId : String
  fileId : String
  parentType : String
  loc : Loc
  parentText : String
  seqStart : Nat
  seqEnd : Nat
  indexVersion : String
  docHash : String
deriving DecidableEq, Repr

/-- Model of database `Chunk` rows (db/models.py). -/
structure ChunkRow where
  chunkId : Nat
  projectId : String
  fileId : String
  parentId : Nat
  chunkType : String
  chunkText : String
  embeddingText : String
  seqStart : Nat
  seqEnd : Nat
  loc : Loc
  chunkPolicy : String
  boundaryReason : String
  policyVersion : String
  indexVersion : String
  docHash : String
deriving DecidableEq, Repr

/-- Model of database `File` rows. -/
structure FileRow where
  fileId : String
  projectId : String
  filename : String
  docHash : String
  sourceType : String
deriving DecidableEq, Repr

/-- Model of database `IngestionLog` rows, unique on
(project, doc hash, index version). -/
structure LogRow where
  projectId : String
  fileId : String
  docHash : String
  indexVersion : String
deriving DecidableEq, Repr

/-- Committed database state. -/
structure DBState where
  projects : List String
  files : List FileRow
  parents : List ParentRow
  chunks : List ChunkRow
  logs : List LogRow
deriving DecidableEq, Repr

/-- Whole-system state seen by one ingestion run: the relational store and
the vector store (the latter outside the transaction). -/
structure World where
  db : DBState
  store : Store
deriving DecidableEq, Repr

/-- Model of `IngestionResult`. -/
structure IngestionResultM where
  skipped : Bool := false
  fileId : String := ""
  parentsCreated : Nat := 0
  chunksCreated : Nat := 0
  error : Option String := none
deriving DecidableEq, Repr

/-- Environment of one ingestion call: the external collaborators (parsers,
hash, embedding, OCR, vision), the configured chunking policy, the fresh
file id the run would draw from uuid4, the image-annex toggles, and whether
the final database commit succeeds (a commit may fail at the storage layer;
everything staged in the session is then rolled back). -/
structure OrchEnv where
  hash : List Nat → String
  freshFileId : String
  pdfParse : List Nat → String → Except String (List Block)
  pptxParse : List Nat → String → Except String (List Block)
  docxParse : List Nat → String → Except String (List Block)
  policyBuildParents : List Block → String → Nat → List ParentNode × Nat
  policyBuildChildren : ParentNode → Nat → List ChildChunk × Nat
  embed : List String → Except String (List (List ℚ))
  ocrEnabled : Bool
  visionEnabled : Bool
  ocrText : List Nat → String
  vision : List Nat → VisionOutputM
  commitOk : Bool

/-- Model of `_get_parser`: dispatch on the declared source type; an
unknown type raises ValueError inside the try block, surfaced as an error
result. -/
def getParser (env : OrchEnv) (sourceType : String) :
    Except String (List Nat → String → Except String (List Block)) :=
  if sourceType = "pdf" then .ok env.pdfParse
  else if sourceType = "pptx" then .ok env.pptxParse
  else if sourceType = "docx" then .ok env.docxParse
  else .error ("Unsupported source_type: " ++ sourceType)

/-- Model of the per-image body of `process_image_blocks`: an OCR chunk for
non-blank extracted text when OCR is enabled, then a caption chunk when
vision is enabled, with the caption text assembled from summary, bullets,
entities and chart read-out (Python truthiness: empty strings and lists
contribute nothing). -/
def processImagePair (env : OrchEnv) (imgBytes : List Nat) (loc : Loc)
    (parentId : Nat) (n : Nat) : List ChildChunk × Nat :=
  let (ocrChunks, n1) :=
    if env.ocrEnabled && !imgBytes.isEmpty then
      let t := env.ocrText imgBytes
      if pyStrip t = "" then (([] : List ChildChunk), n)
      else
        ([({ chunkId := n, parentId := parentId, chunkType := "image_ocr",
             chunkText := t, embeddingText := t, seqStart := 0, seqEnd := 0,
             loc := loc, chunkPolicy := "image_pipeline",
             boundaryReason := "ocr", policyVersion := "1.0" } : ChildChunk)], n + 1)
    else ([], n)
  let (visChunks, n2) :=
    if env.visionEnabled && !imgBytes.isEmpty then
      let out := env.vision imgBytes
      let cap0 := out.summary
      let cap1 :=
        if out.bullets.isEmpty then cap0
        else cap0 ++ "\n" ++ String.intercalate "\n" (out.bullets.map (fun b => "- " ++ b))
      let cap2 :=
        if out.entities.isEmpty then cap1
        else cap1 ++ "\nEntities: " ++ String.intercalate ", " out.entities
      let cap3 := match out.chartReadout with
        | some cr => if cr = "" then cap2 else cap2 ++ "\nChart: " ++ cr
        | none => cap2
      ([({ chunkId := n1, parentId := parentId, chunkType := "image_caption",
           chunkText := cap3, embeddingText := cap3, seqStart := 0, seqEnd := 0,
           loc := loc, chunkPolicy := "image_pipeline",
           boundaryReason := "vision_caption", policyVersion := "1.0" } : ChildChunk)],
        n1 + 1)
    else ([], n1)
  (ocrChunks ++ visChunks, n2)

/-- Model of `process_image_blocks` over the matched image-parent pairs. -/
def processImageBlocks (env : OrchEnv) :
    List (List Nat × Loc × Nat) → Nat → List ChildChunk × Nat
  | [], n => ([], n)
  | (bytes, loc, pid) :: rest, n =>
    let (cs, n1) := processImagePair env bytes loc pid n
    let (csRest, n2) := processImageBlocks env rest n1
    (cs ++ csRest, n2)

/-- Children of all parents under the configured policy, ids threaded. -/
def buildAllChildren (env : OrchEnv) : List ParentNode → Nat → List ChildChunk × Nat
  | [], n => ([], n)
  | p :: rest, n =>
    let (cs, n1) := env.policyBuildChildren p n
    let (csRest, n2) := buildAllChildren env rest n1
    (cs ++ csRest, n2)

/-- An error result of `ingest_file`: the exception text captured in the
result, nothing marked skipped. -/
def errResult (fid e : String) : IngestionResultM := { fileId := fid, error := some e }

/-- The idempotency-lookup predicate: same project, document hash and index
version. -/
def logMatch (projectId docHash indexVersion : String) (l : LogRow) : Bool :=
  l.projectId == projectId && l.docHash == docHash && l.indexVersion == indexVersion

/-- Model of `ingest_file` (orchestrator.py).  The idempotency check reads
the committed log; the project row is committed immediately (the mid-run
`db.commit()` of the source); parents, file, chunks and the idempotency log
are staged and become visible only if the final commit succeeds, while the
vector-store upsert mutates the store as soon as it runs; every failure is
captured as an error result after a session rollback of the staged rows. -/
def ingest (env : OrchEnv) (projectId : String) (fileBytes : List Nat)
    (filename sourceType indexVersion : String) (fileIdArg : Option String)
    (w : World) : IngestionResultM × World :=
  let docHash := env.hash fileBytes
  let fid := fileIdArg.getD env.freshFileId
  match w.db.logs.find? (logMatch projectId docHash indexVersion) with
  | some l => ({ skipped := true, fileId := l.fileId }, w)
  | none =>
    let db1 :=
      if projectId ∈ w.db.projects then w.db
      else { w.db with projects := w.db.projects ++ [projectId] }
    match getParser env sourceType with
    | .error e => (errResult fid e, { w with db := db1 })
    | .ok parse =>
      match parse fileBytes filename with
      | .error e => (errResult fid e, { w with db := db1 })
      | .ok blocks =>
        let (parents, n1) := env.policyBuildParents blocks sourceType 0
        let imagePairs := blocks.filterMap (fun b => match b with
          | .image bytes loc =>
            (findParentForImage loc parents).map (fun pid => (bytes, loc, pid))
          | _ => none)
        let (imageChunks, n2) := processImageBlocks env imagePairs n1
        let (children, _) := buildAllChildren env parents n2
        let allChunks := children ++ imageChunks
        let texts := allChunks.map (fun c => c.embeddingText)
        let embedRes : Except String Store :=
          if texts.isEmpty then .ok w.store
          else match env.embed texts with
            | .error e => .error e
            | .ok vectors =>
              let records := (allChunks.zip vectors).map (fun cv =>
                ({ chunkId := toString cv.1.chunkId, vector := cv.2,
                   projectId := projectId, fileId := fid,
                   parentId := toString cv.1.parentId,
                   chunkType := cv.1.chunkType, chunkText := cv.1.chunkText,
                   loc := cv.1.loc, indexVersion := indexVersion,
                   docHash := docHash } : VRecord))
              .ok (vsUpsert w.store records)
        match embedRes with
        | .error e => (errResult fid e, { w with db := db1 })
        | .ok store1 =>
          if env.commitOk then
            let parentRows := parents.map (fun p =>
              ({ parentId := p.parentId, projectId := projectId, fileId := fid,
                 parentType := p.parentType, loc := p.loc,
                 parentText := p.parentText, seqStart := p.seqStart,
                 seqEnd := p.seqEnd, indexVersion := indexVersion,
                 docHash := docHash } : ParentRow))
            let fileRows :=
              if db1.files.any (fun f => f.fileId = fid) then ([] : List FileRow)
              else [{ fileId := fid, projectId := projectId, filename := filename,
                      docHash := docHash, sourceType := sourceType }]
            let chunkRows := allChunks.map (fun c =>
              ({ chunkId := c.chunkId, projectId := projectId, fileId := fid,
                 parentId := c.parentId, chunkType := c.chunkType,
                 chunkText := c.chunkText, embeddingText := c.embeddingText,
                 seqStart := c.seqStart, seqEnd := c.seqEnd, loc := c.loc,
                 chunkPolicy := c.chunkPolicy, boundaryReason := c.boundaryReason,
                 policyVersion := c.policyVersion, indexVersion := indexVersion,
                 docHash := docHash } : ChunkRow))
            let db2 : DBState :=
              { projects := db1.projects, files := db1.files ++ fileRows,
                parents := db1.parents ++ parentRows,
                chunks := db1.chunks ++ chunkRows,
                logs := db1.logs ++ [{ projectId := projectId, fileId := fid,
                                       docHash := docHash,
                                       indexVersion := indexVersion }] }
            ({ skipped := false, fileId := fid, parentsCreated := parents.length,
               chunksCreated := allChunks.length },
              { db := db2, store := store1 })
          else
            (errResult fid "commit failed", { db := db1, store := store1 })

/-! ## Helper definitions for the claim statements -/

/-- Text contents of the text blocks, in order (what `build_children`
concatenates). -/
def textOfBlocks : List Block → List String
  | [] => []
  | .text c _ :: rest => c :: textOfBlocks rest
  | .table _ _ :: rest => textOfBlocks rest
  | .image _ _ :: rest => textOfBlocks rest

/-- The concatenated text a parent's `build_children` call splits. -/
def parentJoinedText (parent : ParentNode) : String :=
  String.intercalate "\n\n" (textOfBlocks parent.blocks)

/-- The text-content projection of `tableScan` is `textOfBlocks`. -/
theorem tableScan_texts (pn pv : String) (parent : ParentNode) :
    ∀ (bs : List Block) (n : Nat), (tableScan pn pv parent bs n).2.1 = textOfBlocks bs := by
  intro bs
  induction bs with
  | nil => intro n; rfl
  | cons b rest ih =>
    intro n
    cases b <;> simp [tableScan, textOfBlocks, ih]

/-- Every chunk produced by the table scan is a table chunk carrying the
parent's sequence range. -/
theorem tableScan_chunks (pn pv : String) (parent : ParentNode) :
    ∀ (bs : List Block) (n : Nat), ∀ c ∈ (tableScan pn pv parent bs n).1,
      c.chunkType = "table" ∧ c.seqStart = parent.seqStart ∧ c.seqEnd = parent.seqEnd := by
  intro bs
  induction bs with
  | nil => intro n c hc; simp [tableScan] at hc
  | cons b rest ih =>
    intro n c hc
    cases b with
    | text content l => exact ih n c (by simpa [tableScan] using hc)
    | image bytes l => exact ih n c (by simpa [tableScan] using hc)
    | table content l =>
      simp only [tableScan, List.mem_cons] at hc
      rcases hc with h | h
      · subst h; exact ⟨rfl, rfl, rfl⟩
      · exact ih (n + 1) c h

/-! ## C10: the token estimator never returns 0 -/

/-- C10: `estimate_tokens` computes `max(1, len(text) // 4)`, so it returns
at least 1 for every input; the empty string yields 1, and so does every
text shorter than 8 characters. -/
theorem estimateTokens_floor (s : String) :
    1 ≤ estimate_tokens s ∧ (s = "" → estimate_tokens s = 1) ∧
    (s.length < 8 → estimate_tokens s = 1) := by
  refine ⟨le_max_left _ _, ?_, ?_⟩
  · intro h; subst h; rfl
  · intro h
    have h2 : s.length / 4 ≤ 1 := by omega
    simp only [estimate_tokens]
    omega

/-- Witness for C10 at concrete inputs: the empty string and a 7-character
string both estimate to exactly 1 token, and a 1-character string to at
least 1. -/
theorem estimateTokens_floor_witness :
    estimate_tokens "" = 1 ∧ estimate_tokens "aaaaaaa" = 1 ∧ 1 ≤ estimate_tokens "x" :=
  ⟨(estimateTokens_floor "").2.1 rfl,
   (estimateTokens_floor "aaaaaaa").2.2 (by decide),
   (estimateTokens_floor "x").1⟩

/-! ## C7: hybrid delegation equivalence -/

/-- C7: for a parent whose estimated token count is strictly below
`semantic_enabled_min_tokens`, `HybridChunkingPolicy.build_children`
produces output identical to calling StructureFixed (with its default
parameters 280/60/380, exactly the instance Hybrid constructs) directly on
the same parent with the same fresh-id supply; at or above the threshold it
delegates to `SemanticChunkingPolicy.build_children` with the configured
threshold and default hard maximum 380. -/
theorem hybrid_delegation (sqrtQ : ℚ → ℚ) (embed : List String → List (List ℚ))
    (minTok : Nat) (thr : ℚ) (parent : ParentNode) (n0 : Nat) :
    (estimate_tokens parent.parentText < minTok →
      buildChildrenHy sqrtQ embed minTok thr parent n0 = buildChildrenSF 280 380 60 parent n0) ∧
    (minTok ≤ estimate_tokens parent.parentText →
      buildChildrenHy sqrtQ embed minTok thr parent n0 =
        buildChildrenSem sqrtQ embed thr 380 parent n0) := by
  constructor
  · intro h
    have h2 : ¬ (estimate_tokens parent.parentText ≥ minTok) := by omega
    simp [buildChildrenHy, h2]
  · intro h
    simp [buildChildrenHy, h]

/-- A short parent (below the default 600-token threshold). -/
def hyShortParent : ParentNode :=
  { parentId := 0, parentType := "page", loc := { pageNum := some 0 },
    parentText := "hello there", seqStart := 0, seqEnd := 0,
    blocks := [Block.text "hello there" { pageNum := some 0 }] }

/-- A long parent (at the default 600-token threshold: 2400 characters). -/
def hyLongParent : ParentNode :=
  { parentId := 0, parentType := "page", loc := { pageNum := some 0 },
    parentText := String.mk (List.replicate 2400 'a'), seqStart := 0, seqEnd := 0,
    blocks := [Block.text (String.mk (List.replicate 2400 'a')) { pageNum := some 0 }] }

/-- Witness for C7: at the default threshold 600, an 11-character parent
goes to StructureFixed and a 2400-character parent goes to Semantic. -/
theorem hybrid_delegation_witness :
    (estimate_tokens hyShortParent.parentText < 600 ∧
      buildChildrenHy (fun q => q) (fun ts => ts.map (fun _ => [1])) 600 (72 / 100)
        hyShortParent 0 =
      buildChildrenSF 280 380 60 hyShortParent 0) ∧
    (600 ≤ estimate_tokens hyLongParent.parentText ∧
      buildChildrenHy (fun q => q) (fun ts => ts.map (fun _ => [1])) 600 (72 / 100)
        hyLongParent 0 =
      buildChildrenSem (fun q => q) (fun ts => ts.map (fun _ => [1])) (72 / 100) 380
        hyLongParent 0) := by
  have hlen : estimate_tokens hyLongParent.parentText = 600 := by
    have h1 : (hyLongParent.parentText).length = 2400 := by
      rw [show (hyLongParent.parentText).length = (List.replicate 2400 'a').length from rfl]
      exact List.length_replicate 2400 'a'
    simp [estimate_tokens, h1]
  constructor
  · exact ⟨by decide,
      (hybrid_delegation _ _ 600 _ hyShortParent 0).1 (by decide)⟩
  · exact ⟨by omega,
      (hybrid_delegation _ _ 600 _ hyLongParent 0).2 (by omega)⟩

/-! ## C6: the token budget and what the packing loop actually enforces -/

/-- The overlap scan never accumulates more than the overlap budget. -/
theorem overlapAux_sum_le (o : Nat) :
    ∀ (l ov : List String) (tks : Nat),
      (ov.map estimate_tokens).sum = tks → tks ≤ o →
      ((overlapAux o l ov tks).map estimate_tokens).sum ≤ o := by
  intro l
  induction l with
  | nil => intro ov tks h1 h2; simpa [overlapAux, h1] using h2
  | cons s rest ih =>
    intro ov tks h1 h2
    unfold overlapAux
    split
    · exact ih (s :: ov) (tks + estimate_tokens s) (by simp [h1]; omega) (by omega)
    · simpa [h1] using h2

/-- The overlap seed of a buffer stays within the overlap budget. -/
theorem overlapOf_sum_le (o : Nat) (acc : List String) :
    ((overlapOf o acc).map estimate_tokens).sum ≤ o :=
  overlapAux_sum_le o acc.reverse [] 0 (by simp) (Nat.zero_le o)

/-- Invariant of the packing loop: the tracked token count is the buffer's
per-sentence estimate sum; the buffer is a single sentence or within the
hard budget in that per-sentence metric; and every flushed chunk satisfies
the same disjunction. -/
def PackInv (hardMax : Nat) (st : PackState) : Prop :=
  st.accTokens = (st.acc.map estimate_tokens).sum ∧
  (st.acc.length = 1 ∨ (st.acc.map estimate_tokens).sum ≤ hardMax) ∧
  ∀ pc ∈ st.chunks,
    pc.sents.length = 1 ∨ (pc.sents.map estimate_tokens).sum ≤ hardMax

/-- One packing step preserves the invariant when the overlap budget is
within the hard budget. -/
theorem packStep_inv (target hardMax overlap ps pe : Nat)
    (hov : overlap ≤ hardMax) (st : PackState) (s : String)
    (h : PackInv hardMax st) :
    PackInv hardMax (packStep target hardMax overlap ps pe st s) := by
  obtain ⟨heq, hacc, hch⟩ := h
  unfold packStep
  dsimp only
  split
  · next h1 =>
    refine ⟨rfl, Or.inr (le_trans (overlapOf_sum_le overlap st.acc) hov), ?_⟩
    intro pc hpc
    rcases List.mem_append.mp hpc with hmem | hmem
    · exact hch pc hmem
    · have hpc2 : pc = (⟨st.acc, st.seq, st.seq + st.acc.length - 1⟩ : PackChunk) := by
        simpa using hmem
      subst hpc2
      exact hacc
  · next h1 =>
    have hbound : st.acc = [] ∨
        (st.acc.map estimate_tokens).sum + estimate_tokens s ≤ hardMax := by
      by_cases hemp : st.acc.isEmpty
      · exact Or.inl (List.isEmpty_iff.mp hemp)
      · right
        have hne : st.acc.isEmpty = false := by
          cases hv : st.acc.isEmpty
          · rfl
          · exact absurd hv hemp
      

        have hgt : ¬ (st.accTokens + estimate_tokens s > hardMax) := by
          intro hgt
          exact h1 (by simp [hne, hgt])
        rw [heq] at hgt
        omega
    have hP1 : (st.acc ++ [s]).length = 1 ∨
        (((st.acc ++ [s]).map estimate_tokens).sum ≤ hardMax) := by
      rcases hbound with h2 | h2
      · left; simp [h2]
      · right
        simp only [List.map_append, List.sum_append, List.map_cons, List.map_nil,
          List.sum_cons, List.sum_nil]
        omega
    split
    · next htar =>
      refine ⟨rfl, Or.inr (le_trans (overlapOf_sum_le overlap _) hov), ?_⟩
      intro pc hpc
      rcases List.mem_append.mp hpc with hmem | hmem
      · exact hch pc hmem
      · have hpc2 : pc = (⟨st.acc ++ [s], ps, pe⟩ : PackChunk) := by
          simpa using hmem
        subst hpc2
        exact hP1
    · next htar =>
      refine ⟨?_, hP1, hch⟩
      simp only [List.map_append, List.sum_append, List.map_cons, List.map_nil,
        List.sum_cons, List.sum_nil, heq]
      omega

/-- The packing fold preserves the invariant. -/
theorem packFold_inv (target hardMax overlap ps pe : Nat) (hov : overlap ≤ hardMax) :
    ∀ (sents : List String) (st : PackState), PackInv hardMax st →
      PackInv hardMax (sents.foldl (packStep target hardMax overlap ps pe) st) := by
  intro sents
  induction sents with
  | nil => intro st h; exact h
  | cons s rest ih =>
    intro st h
    exact ih _ (packStep_inv target hardMax overlap ps pe hov st s h)

/-- C6 (amended): for every configuration whose overlap budget does not
exceed the hard budget (the defaults are 60 and 380), every buffer flushed
by the StructureFixed packing loop — hence every pre-merge text chunk —
either is a single sentence or has per-sentence estimated token counts
summing to at most hard_max_tokens.  This per-sentence-sum bound is the
budget the code actually enforces; the token estimate of the joined
chunk_text itself can exceed hard_max_tokens, because the one-space join
separators and the floor-division remainders of the per-sentence estimates
are not counted (see the counterexample), and a single over-long sentence
is never split.  Image chunks are exempt as the claim states. -/
theorem packSentences_sentence_budget (target hardMax overlap ps pe : Nat)
    (hov : overlap ≤ hardMax) (sents : List String) :
    ∀ pc ∈ packSentences target hardMax overlap ps pe sents,
      pc.sents.length = 1 ∨ (pc.sents.map estimate_tokens).sum ≤ hardMax := by
  have hinv : PackInv hardMax
      (sents.foldl (packStep target hardMax overlap ps pe) ⟨[], [], 0, 0⟩) :=
    packFold_inv target hardMax overlap ps pe hov sents _
      ⟨rfl, Or.inr (by simp), by simp⟩
  unfold packSentences
  dsimp only
  split
  · exact hinv.2.2
  · intro pc hpc
    rcases List.mem_append.mp hpc with hmem | hmem
    · exact hinv.2.2 pc hmem
    · have hpc2 : pc = (⟨(List.foldl (packStep target hardMax overlap ps pe)
          ⟨[], [], 0, 0⟩ sents).acc, ps, pe⟩ : PackChunk) := by simpa using hmem
      subst hpc2
      exact hinv.2.1

/-- Witness for the amended C6 at the default configuration and a concrete
sentence list. -/
theorem packSentences_sentence_budget_witness :
    60 ≤ 380 ∧ ∀ pc ∈ packSentences 280 380 60 0 0 ["hi.", "there."],
      pc.sents.length = 1 ∨ (pc.sents.map estimate_tokens).sum ≤ 380 :=
  ⟨by decide, packSentences_sentence_budget 280 380 60 0 0 (by decide) _⟩

/-- The one-page input of the C6 counterexample: three 7-character
sentences. -/
def ce6blocks : List Block :=
  [Block.text "aaaaaa. aaaaaa. aaaaaa." { pageNum := some 0 }]

/-- The parent StructureFixed builds from that input. -/
def ce6parent : ParentNode :=
  ((buildParentsSF ce6blocks "pdf" 0).1).getD 0 ⟨0, "", {}, "", 0, 0, []⟩

/-- C6 counterexample: under the legal configuration target_tokens 3,
overlap_tokens 0, hard_max_tokens 3 (config.py only requires target ≥ 1,
overlap ≥ 0, hard max ≥ 1), `build_children` on this parent emits a text
chunk whose chunk_text token estimate is 5, exceeding hard_max_tokens — the
three sentences pass the packing check with per-sentence sum 3 ≤ 3, but the
joined text is 23 characters, estimating to 5.  This refutes the claim that
every text chunk's chunk_text estimate is bounded by hard_max_tokens. -/
theorem token_budget_counterexample :
    ¬ (∀ c ∈ (buildChildrenSF 3 3 0 ce6parent 0).1,
        c.chunkType = "text" → estimate_tokens c.chunkText ≤ 3) := by decide

/-! ## C8: a single over-long sentence is not force-split -/

/-- The packing loop on a lone sentence exceeding the hard budget emits
exactly that sentence as one buffer: it enters the empty buffer, reaches
the target immediately, flushes, and seeds an empty overlap. -/
theorem packSentences_single_overlong (target hardMax overlap ps pe : Nat) (s : String)
    (hbig : hardMax < estimate_tokens s) (htar : target ≤ hardMax)
    (hov : overlap ≤ hardMax) :
    packSentences target hardMax overlap ps pe [s] = [⟨[s], ps, pe⟩] := by
  have h2 : target ≤ estimate_tokens s := by omega
  have h3 : ¬ (estimate_tokens s ≤ overlap) := by omega
  simp [packSentences, packStep, overlapOf, overlapAux, h2, h3]

/-- Joining a single-sentence buffer is the sentence itself. -/
theorem joinSp_single (s : String) : joinSp [s] = s := rfl

/-- The merge pass keeps a lone non-empty chunk unchanged. -/
theorem mergeSmall_single_big (hardMax : Nat) (p : Piece) (hne : p.text ≠ "") :
    mergeSmallChunks [p] 50 hardMax = [p] := by
  simp [mergeSmallChunks, mergeLoop, hne]

/-- A text whose token estimate exceeds a positive hard budget is
non-empty. -/
theorem estimate_big_ne_empty (hardMax : Nat) (s : String) (hpos : 1 ≤ hardMax)
    (hbig : hardMax < estimate_tokens s) : s ≠ "" := by
  intro h
  subst h
  simp [estimate_tokens] at hbig
  omega

/-- C8: for every parent whose concatenated text splits into a single
sentence whose estimated token count alone exceeds hard_max_tokens,
`StructureFixedChunkingPolicy.build_children` emits that sentence as one
text chunk, unsplit (for every configuration with target and overlap within
the positive hard budget, which includes the defaults 280/60/380). -/
theorem single_overlong_sentence_unsplit (target hardMax overlap : Nat)
    (parent : ParentNode) (s : String) (n0 : Nat)
    (htext : ¬ pyStrip (parentJoinedText parent) = "")
    (hsent : sentences (parentJoinedText parent) = [s])
    (hbig : hardMax < estimate_tokens s)
    (htar : target ≤ hardMax) (hov : overlap ≤ hardMax) (hpos : 1 ≤ hardMax) :
    ((buildChildrenSF target hardMax overlap parent n0).1.filter
        (fun c => c.chunkType == "text")).map (fun c => c.chunkText) = [s] := by
  have htexts : (tableScan "structure_fixed" "1.0" parent parent.blocks n0).2.1 =
      textOfBlocks parent.blocks := tableScan_texts _ _ _ _ _
  have hje : String.intercalate "\n\n"
      (tableScan "structure_fixed" "1.0" parent parent.blocks n0).2.1 =
      parentJoinedText parent := by rw [htexts]; rfl
  have hne := estimate_big_ne_empty hardMax s hpos hbig
  unfold buildChildrenSF
  dsimp only
  rw [hje, if_neg htext, hsent,
    packSentences_single_overlong target hardMax overlap _ _ s hbig htar hov]
  rw [show (([⟨[s], parent.seqStart, parent.seqEnd⟩] : List PackChunk).map
      (fun pc => (⟨pc.text, pc.seqStart, pc.seqEnd⟩ : Piece))) =
      [⟨s, parent.seqStart, parent.seqEnd⟩] from by simp [PackChunk.text, joinSp_single]]
  rw [mergeSmall_single_big hardMax _ hne]
  rw [List.filter_append, List.map_append]
  have htab : ((tableScan "structure_fixed" "1.0" parent parent.blocks n0).1.filter
      (fun c => c.chunkType == "text")) = [] := by
    apply List.filter_eq_nil_iff.mpr
    intro c hc
    have := (tableScan_chunks "structure_fixed" "1.0" parent parent.blocks n0 c hc).1
    simp [this]
  rw [htab]
  simp [mkTextChunks]

/-- A 200-character run with no sentence-terminal punctuation. -/
def ce8text : String := String.mk (List.replicate 200 'a')

/-- The one-block parent carrying that text. -/
def ce8parent : ParentNode :=
  ((buildParentsSF [Block.text ce8text { pageNum := some 0 }] "pdf" 0).1).getD 0
    ⟨0, "", {}, "", 0, 0, []⟩

set_option maxRecDepth 8000 in
/-- Witness for C8: with target 20, hard max 30 and overlap 10, the
200-character single-sentence parent (estimate 50 tokens, over the budget)
is emitted as exactly one unsplit text chunk. -/
theorem single_overlong_sentence_unsplit_witness :
    (¬ pyStrip (parentJoinedText ce8parent) = "") ∧
    sentences (parentJoinedText ce8parent) = [ce8text] ∧
    30 < estimate_tokens ce8text ∧
    ((buildChildrenSF 20 30 10 ce8parent 0).1.filter
        (fun c => c.chunkType == "text")).map (fun c => c.chunkText) = [ce8text] :=
  ⟨by decide, by decide, by decide,
    single_overlong_sentence_unsplit 20 30 10 ce8parent ce8text 0 (by decide) (by decide)
      (by decide) (by decide) (by decide) (by decide)⟩

/-! ## C9: sequence-range monotonicity -/

/-- The overlap scan keeps at most the tokens it was given. -/
theorem overlapAux_sum_le_input (o : Nat) :
    ∀ (l ov : List String) (tks : Nat),
      ((overlapAux o l ov tks).map estimate_tokens).sum ≤
        (l.map estimate_tokens).sum + (ov.map estimate_tokens).sum := by
  intro l
  induction l with
  | nil => intro ov tks; simp [overlapAux]
  | cons s rest ih =>
    intro ov tks
    unfold overlapAux
    split
    · have := ih (s :: ov) (tks + estimate_tokens s)
      simp only [List.map_cons, List.sum_cons] at this ⊢
      omega
    · simp only [List.map_cons, List.sum_cons]
      omega

theorem overlapOf_sum_le_acc (o : Nat) (acc : List String) :
    ((overlapOf o acc).map estimate_tokens).sum ≤ (acc.map estimate_tokens).sum := by
  have := overlapAux_sum_le_input o acc.reverse [] 0
  simpa [overlapOf, List.sum_reverse] using this

theorem packFold_ranges (target hardMax overlap ps pe : Nat) :
    ∀ (rest : List String) (st : PackState),
      st.accTokens = (st.acc.map estimate_tokens).sum →
      (st.acc.map estimate_tokens).sum + (rest.map estimate_tokens).sum ≤ hardMax →
      (∀ pc ∈ st.chunks, pc.seqStart = ps ∧ pc.seqEnd = pe) →
      (∀ pc ∈ (rest.foldl (packStep target hardMax overlap ps pe) st).chunks,
          pc.seqStart = ps ∧ pc.seqEnd = pe) ∧
      (rest.foldl (packStep target hardMax overlap ps pe) st).accTokens =
        (((rest.foldl (packStep target hardMax overlap ps pe) st).acc).map
          estimate_tokens).sum := by
  intro rest
  induction rest with
  | nil => intro st h1 h2 h3; exact ⟨h3, h1⟩
  | cons s rest2 ih =>
    intro st h1 h2 h3
    simp only [List.map_cons, List.sum_cons] at h2
    have hno : ¬ (hardMax < st.accTokens + estimate_tokens s) := by omega
    have hcond : (st.accTokens + estimate_tokens s > hardMax && !st.acc.isEmpty) = false := by
      simp [hno]
    simp only [List.foldl_cons]
    rw [show packStep target hardMax overlap ps pe st s =
        (let acc1 := st.acc ++ [s]
         let tks1 := st.accTokens + estimate_tokens s
         if tks1 ≥ target then
           let ov := overlapOf overlap acc1
           { chunks := st.chunks ++ [⟨acc1, ps, pe⟩],
             acc := ov, accTokens := (ov.map estimate_tokens).sum, seq := st.seq }
         else
           { st with acc := acc1, accTokens := tks1 } : PackState) from by
      unfold packStep; rw [if_neg (by simp [hcond])]]
    dsimp only
    split
    · next htar =>
      apply ih
      · rfl
      · have hov1 := overlapOf_sum_le_acc overlap (st.acc ++ [s])
        simp only [List.map_append, List.sum_append, List.map_cons, List.map_nil,
          List.sum_cons, List.sum_nil] at hov1 ⊢
        omega
      · intro pc hpc
        rcases List.mem_append.mp hpc with hmem | hmem
        · exact h3 pc hmem
        · have : pc = (⟨st.acc ++ [s], ps, pe⟩ : PackChunk) := by simpa using hmem
          subst this
          exact ⟨rfl, rfl⟩
    · next htar =>
      apply ih
      · simp only [List.map_append, List.sum_append, List.map_cons, List.map_nil,
          List.sum_cons, List.sum_nil]
        omega
      · simp only [List.map_append, List.sum_append, List.map_cons, List.map_nil,
          List.sum_cons, List.sum_nil]
        omega
      · exact h3

theorem packSentences_ranges (target hardMax overlap ps pe : Nat) (sents : List String)
    (hsum : (sents.map estimate_tokens).sum ≤ hardMax) :
    ∀ pc ∈ packSentences target hardMax overlap ps pe sents,
      pc.seqStart = ps ∧ pc.seqEnd = pe := by
  have h := packFold_ranges target hardMax overlap ps pe sents ⟨[], [], 0, 0⟩
    rfl (by simpa using hsum) (by simp)
  unfold packSentences
  dsimp only
  split
  · exact h.1
  · intro pc hpc
    rcases List.mem_append.mp hpc with hmem | hmem
    · exact h.1 pc hmem
    · have : pc = (⟨(List.foldl (packStep target hardMax overlap ps pe)
          ⟨[], [], 0, 0⟩ sents).acc, ps, pe⟩ : PackChunk) := by simpa using hmem
      subst this
      exact ⟨rfl, rfl⟩

theorem mergeLoop_ranges (minT maxT ps pe : Nat) :
    ∀ (pieces : List Piece) (accText : String) (aS aE : Nat),
      (∀ p ∈ pieces, p.seqStart = ps ∧ p.seqEnd = pe) → aS = ps → aE = pe →
      ∀ q ∈ mergeLoop minT maxT pieces accText aS aE,
        q.seqStart = ps ∧ q.seqEnd = pe := by
  intro pieces
  induction pieces with
  | nil =>
    intro accText aS aE hp hS hE q hq
    unfold mergeLoop at hq
    split at hq
    · simp at hq
    · have : q = (⟨accText, aS, aE⟩ : Piece) := by simpa using hq
      subst this
      exact ⟨hS, hE⟩
  | cons p rest ih =>
    intro accText aS aE hp hS hE q hq
    have hpp := hp p (by simp)
    unfold mergeLoop at hq
    dsimp only at hq
    split at hq
    · exact ih _ _ _ (fun x hx => hp x (by simp [hx])) hS hpp.2 q hq
    · rcases List.mem_append.mp hq with hmem | hmem
      · split at hmem
        · simp at hmem
        · have : q = (⟨accText, aS, aE⟩ : Piece) := by simpa using hmem
          subst this
          exact ⟨hS, hE⟩
      · exact ih _ _ _ (fun x hx => hp x (by simp [hx])) hpp.1 hpp.2 q hmem

theorem mergeSmallChunks_ranges (minT maxT ps pe : Nat) (pieces : List Piece)
    (hp : ∀ p ∈ pieces, p.seqStart = ps ∧ p.seqEnd = pe) :
    ∀ q ∈ mergeSmallChunks pieces minT maxT, q.seqStart = ps ∧ q.seqEnd = pe := by
  unfold mergeSmallChunks
  match pieces, hp with
  | [], _ => intro q hq; simp at hq
  | c :: rest, hp =>
    have hc := hp c (by simp)
    exact mergeLoop_ranges minT maxT ps pe (c :: rest) "" c.seqStart c.seqEnd hp hc.1 hc.2

theorem mkTextChunks_ranges (pn pv rs : String) (parent : ParentNode) (ps pe : Nat) :
    ∀ (pieces : List Piece) (n : Nat),
      (∀ p ∈ pieces, p.seqStart = ps ∧ p.seqEnd = pe) →
      ∀ c ∈ (mkTextChunks pn pv rs parent pieces n).1,
        c.seqStart = ps ∧ c.seqEnd = pe := by
  intro pieces
  induction pieces with
  | nil => intro n hp c hc; simp [mkTextChunks] at hc
  | cons p rest ih =>
    intro n hp c hc
    simp only [mkTextChunks, List.mem_cons] at hc
    rcases hc with h | h
    · subst h
      exact hp p (by simp)
    · exact ih (n + 1) (fun x hx => hp x (by simp [hx])) c h

/-- C9 (amended): within a parent whose sentence split has per-sentence
token estimates summing to at most hard_max_tokens, every emitted child
(table or text) carries exactly the parent's (seq_start, seq_end), so the
sequence ranges are constant and in particular non-decreasing in emission
order.  In general the claim fails: the hard-max overflow flush records a
zero-based local word counter as the range while target-triggered flushes
record the parent's range, so an overflow chunk emitted after a
target-triggered chunk of a parent with positive seq_start strictly
decreases the range (see the counterexample). -/
theorem seq_ranges_constant_within_budget (target hardMax overlap : Nat)
    (parent : ParentNode) (n0 : Nat)
    (hsum : ((sentences (parentJoinedText parent)).map estimate_tokens).sum ≤ hardMax) :
    (∀ c ∈ (buildChildrenSF target hardMax overlap parent n0).1,
      c.seqStart = parent.seqStart ∧ c.seqEnd = parent.seqEnd) ∧
    List.Chain' (fun a b : ChildChunk => a.seqStart ≤ b.seqStart ∧ a.seqEnd ≤ b.seqEnd)
      ((buildChildrenSF target hardMax overlap parent n0).1) := by
  have hje : String.intercalate "\n\n"
      (tableScan "structure_fixed" "1.0" parent parent.blocks n0).2.1 =
      parentJoinedText parent := by
    rw [tableScan_texts]; rfl
  have hconst : ∀ c ∈ (buildChildrenSF target hardMax overlap parent n0).1,
      c.seqStart = parent.seqStart ∧ c.seqEnd = parent.seqEnd := by
    intro c hc
    unfold buildChildrenSF at hc
    dsimp only at hc
    rw [hje] at hc
    split at hc
    · exact ⟨(tableScan_chunks _ _ _ _ _ c hc).2.1, (tableScan_chunks _ _ _ _ _ c hc).2.2⟩
    · rcases List.mem_append.mp hc with hmem | hmem
      · exact ⟨(tableScan_chunks _ _ _ _ _ c hmem).2.1, (tableScan_chunks _ _ _ _ _ c hmem).2.2⟩
      · refine mkTextChunks_ranges _ _ _ parent parent.seqStart parent.seqEnd _ _ ?_ c hmem
        apply mergeSmallChunks_ranges
        intro p hp
        rcases List.mem_map.mp hp with ⟨pc, hpc, hpeq⟩
        have := packSentences_ranges target hardMax overlap parent.seqStart parent.seqEnd
          _ hsum pc hpc
        subst hpeq
        exact this
  refine ⟨hconst, ?_⟩
  apply List.Pairwise.chain'
  apply List.pairwise_of_forall_mem_list
  intro a ha b hb
  have h1 := hconst a ha
  have h2 := hconst b hb
  omega

/-- Witness for the amended C9: a two-sentence parent within the default
budget has all children at the parent's range and non-decreasing ranges. -/
theorem seq_ranges_constant_within_budget_witness :
    ((sentences (parentJoinedText ce6parent)).map estimate_tokens).sum ≤ 380 ∧
    ((∀ c ∈ (buildChildrenSF 280 380 60 ce6parent 0).1,
        c.seqStart = ce6parent.seqStart ∧ c.seqEnd = ce6parent.seqEnd) ∧
      List.Chain' (fun a b : ChildChunk => a.seqStart ≤ b.seqStart ∧ a.seqEnd ≤ b.seqEnd)
        ((buildChildrenSF 280 380 60 ce6parent 0).1)) :=
  ⟨by decide, seq_ranges_constant_within_budget 280 380 60 ce6parent 0 (by decide)⟩

/-- Two pdf pages: one filler block on page 0, and on page 1 a text whose
sentences force first a target flush and then an overflow flush. -/
def ce9blocks : List Block :=
  [Block.text "x" { pageNum := some 0 },
   Block.text "aaaaaaaaaaa. bbbbbbb. ccccccccccc." { pageNum := some 1 }]

/-- The second parent built from that document; its seq_start is 1. -/
def ce9parent : ParentNode :=
  ((buildParentsSF ce9blocks "pdf" 0).1).getD 1 ⟨0, "", {}, "", 0, 0, []⟩

/-- C9 counterexample: under the legal configuration target_tokens 3,
overlap_tokens 0, hard_max_tokens 3, the page-1 parent (seq_start = 1)
emits first a target-flushed chunk with the parent's range (1, 1) and then
an overflow-flushed chunk with the local range (0, 0): the sequence ranges
strictly decrease, refuting the claim that they are non-decreasing in
emission order. -/
theorem seq_monotonicity_counterexample :
    ce9parent.seqStart = 1 ∧
    ((buildChildrenSF 3 3 0 ce9parent 100).1.map (fun c => (c.seqStart, c.seqEnd))) =
      [(1, 1), (0, 0)] ∧
    ¬ List.Chain' (fun a b : ChildChunk => a.seqStart ≤ b.seqStart ∧ a.seqEnd ≤ b.seqEnd)
        ((buildChildrenSF 3 3 0 ce9parent 100).1) := by
  have hmap : ((buildChildrenSF 3 3 0 ce9parent 100).1.map
      (fun c => (c.seqStart, c.seqEnd))) = [(1, 1), (0, 0)] := by decide
  refine ⟨by decide, hmap, ?_⟩
  intro hch
  have hch2 : List.Chain' (fun p q : Nat × Nat => p.1 ≤ q.1 ∧ p.2 ≤ q.2)
      ((buildChildrenSF 3 3 0 ce9parent 100).1.map (fun c => (c.seqStart, c.seqEnd))) :=
    (List.chain'_map _).mpr hch
  rw [hmap] at hch2
  have := (List.chain'_cons.mp hch2).1
  omega

/-! ## C5: non-finite value containment in the search pipeline -/

/-- Clamping always yields a finite value. -/
theorem safeFloat_isFinite (v : Flt) : (safeFloat v).isFinite = true := by
  cases v <;> simp [safeFloat, Flt.isFinite]

/-- C5: whenever `search` returns a `SearchResult` — for every active or
explicit index version, every vector-store response (including adversarial
non-finite scores), and every rerank response (likewise) — no NaN or
infinity appears in any recall or rerank score: every score in the result
passed through `_safe_float`, which clamps non-finite values to 0.  The
`timings_ms` values are integers produced by `int(...)` from finite clock
differences (`Int`-typed in the model), so they are finite by
construction. -/
theorem search_scores_finite (av iva : Option String) (storeHits : List ProviderHit)
    (rerankFn : List String → List RerankResultM) (debug : Bool) (tE tR tRk : Int)
    (res : SearchResultM)
    (h : runSearch av iva storeHits rerankFn debug tE tR tRk = some res) :
    (∀ r ∈ res.«recall», r.score.isFinite = true) ∧
    (∀ r ∈ res.rerank, r.score.isFinite = true) := by
  unfold runSearch at h
  have hfin : ∀ r ∈ storeHits.map toRecallHit, r.score.isFinite = true := by
    intro r hr
    rcases List.mem_map.mp hr with ⟨h0, _, rfl⟩
    exact safeFloat_isFinite h0.score
  rcases hm : (match iva with | some v => some v | none => av) with _ | v
  · rw [hm] at h
    dsimp only at h
    cases h
    exact ⟨by simp, by simp⟩
  · rw [hm] at h
    dsimp only at h
    split at h
    · cases h
      exact ⟨hfin, by simp⟩
    · split at h
      · cases h
        refine ⟨hfin, ?_⟩
        intro r hr
        rcases List.mem_map.mp hr with ⟨e, _, rfl⟩
        exact safeFloat_isFinite e.score
      · cases h

/-! ## C3: rerank remap -/

/-- The metadata a recall hit carries (everything except the score). -/
def recallMeta (h : RecallHitM) : String × String × String × String × String × Loc :=
  (h.chunkId, h.chunkText, h.parentId, h.fileId, h.chunkType, h.loc)

/-- The metadata a rerank hit carries (everything except the score). -/
def rerankMeta (h : RerankHitM) : String × String × String × String × String × Loc :=
  (h.chunkId, h.chunkText, h.parentId, h.fileId, h.chunkType, h.loc)

/-- The rerank list is a permutation-and-truncation of recall indices:
some duplicate-free list of in-range positions reproduces, hit for hit, the
rerank metadata from the recall list. -/
def isPermTruncOf (rr : List RerankHitM) (rc : List RecallHitM) : Prop :=
  ∃ idxs : List Nat, idxs.Nodup ∧ (∀ i ∈ idxs, i < rc.length) ∧
    rr.map rerankMeta = idxs.map (fun i => recallMeta (rc.getD i defaultRecallHit))

/-- C3 (amended): for every search call with non-empty recall whose rerank
capability returns entries with valid and pairwise-distinct candidate
indices, each final rerank entry carries the full metadata of the recall
hit at its index together with the (clamped) rerank score, and the rerank
list is a permutation-and-truncation of recall indices.  Distinctness is
the needed amendment: the code never deduplicates, so a capability
returning the same valid index twice produces a rerank list that repeats
one recall hit and is not a permutation-and-truncation (see the
counterexample); no rerank entry ever references content absent from
recall. -/
theorem rerank_remap (av iva : Option String) (v : String)
    (storeHits : List ProviderHit) (rerankFn : List String → List RerankResultM)
    (debug : Bool) (tE tR tRk : Int)
    (hres : (match iva with | some vv => some vv | none => av) = some v)
    (hne : storeHits ≠ [])
    (hval : ∀ e ∈ rerankFn (storeHits.map (fun h => h.chunkText)),
      e.index < storeHits.length)
    (hnd : ((rerankFn (storeHits.map (fun h => h.chunkText))).map
      (fun e => e.index)).Nodup) :
    ∃ res, runSearch av iva storeHits rerankFn debug tE tR tRk = some res ∧
      res.rerank = (rerankFn (storeHits.map (fun h => h.chunkText))).map
        (fun e => mkRerankFromRecall (res.«recall».getD e.index defaultRecallHit)
          (safeFloat e.score)) ∧
      isPermTruncOf res.rerank res.«recall» := by
  have htexts : ((storeHits.map toRecallHit).map (fun r => r.chunkText)) =
      storeHits.map (fun h => h.chunkText) := by
    rw [List.map_map]; rfl
  have hlenr : (storeHits.map toRecallHit).length = storeHits.length :=
    List.length_map _ _
  have hemp : ((storeHits.map toRecallHit).isEmpty) = false := by
    cases storeHits with
    | nil => exact absurd rfl hne
    | cons a l => rfl
  have hall : (((rerankFn (storeHits.map (fun h => h.chunkText))).all
      (fun e => decide (e.index < (storeHits.map toRecallHit).length))) = true) := by
    rw [List.all_eq_true]
    intro e he
    rw [hlenr]
    exact decide_eq_true_iff.mpr (hval e he)
  refine ⟨{ «recall» := storeHits.map toRecallHit,
            rerank := (rerankFn (storeHits.map (fun h => h.chunkText))).map
              (fun e => mkRerankFromRecall ((storeHits.map toRecallHit).getD e.index
                defaultRecallHit) (safeFloat e.score)),
            timingsMs := [("embed", tE), ("recall", tR), ("rerank", tRk)],
            debugNote := if debug then some v else none }, ?_, ?_, ?_⟩
  · unfold runSearch
    rw [hres]
    dsimp only
    rw [if_neg (by rw [hemp]; exact Bool.false_ne_true), htexts, if_pos hall]
  · rfl
  · dsimp only
    refine ⟨(rerankFn (storeHits.map (fun h => h.chunkText))).map (fun e => e.index),
      hnd, ?_, ?_⟩
    · intro i hi
      rcases List.mem_map.mp hi with ⟨e, he, rfl⟩
      rw [hlenr]
      exact hval e he
    · rw [List.map_map, List.map_map]
      apply List.map_congr_left
      intro e he
      rfl

/-- A vector-store hit with an adversarial NaN score. -/
def advHit : ProviderHit :=
  { chunkId := "c1", score := .nan, projectId := "p", fileId := "f",
    parentId := "pa", chunkType := "text", chunkText := "t", loc := {},
    indexVersion := "v1", docHash := "h" }

/-- A rerank capability returning an adversarial infinite score. -/
def advRerankFn : List String → List RerankResultM :=
  fun _ => [⟨0, .inf, "t"⟩]

/-- The result the pipeline produces from those adversarial providers:
both scores clamped to 0. -/
def advRes : SearchResultM :=
  { «recall» := [{ chunkId := "c1", score := .fin 0, chunkText := "t",
                   parentId := "pa", fileId := "f", chunkType := "text", loc := {} }],
    rerank := [{ chunkId := "c1", score := .fin 0, chunkText := "t",
                 parentId := "pa", fileId := "f", chunkType := "text", loc := {} }],
    timingsMs := [("embed", 1), ("recall", 2), ("rerank", 3)],
    debugNote := none }

/-- Witness for C5: the adversarial NaN recall score and infinite rerank
score both come back clamped to 0, hence finite. -/
theorem search_scores_finite_witness :
    runSearch (some "v1") none [advHit] advRerankFn false 1 2 3 = some advRes ∧
    ((∀ r ∈ advRes.«recall», r.score.isFinite = true) ∧
      (∀ r ∈ advRes.rerank, r.score.isFinite = true)) :=
  ⟨by decide,
    search_scores_finite (some "v1") none [advHit] advRerankFn false 1 2 3 advRes
      (by decide)⟩

/-- A single recall hit for the C3 counterexample. -/
def ce3hit : ProviderHit :=
  { chunkId := "c1", score := .fin 1, projectId := "p", fileId := "f",
    parentId := "pa", chunkType := "text", chunkText := "t", loc := {},
    indexVersion := "v1", docHash := "h" }

/-- A rerank capability returning the same valid index twice. -/
def ce3fn : List String → List RerankResultM :=
  fun _ => [⟨0, .fin 1, "t"⟩, ⟨0, .fin 1, "t"⟩]

/-- C3 counterexample: with one recall hit and a rerank capability
returning the valid index 0 twice, the claim's hypothesis (each index is a
valid position) holds, yet the final rerank list repeats the single recall
hit and is not a permutation-and-truncation of recall indices: any
witnessing index list would need two distinct naturals below 1. -/
theorem rerank_remap_counterexample :
    ∃ res, runSearch (some "v1") none [ce3hit] ce3fn false 0 0 0 = some res ∧
      (∀ e ∈ ce3fn [ce3hit.chunkText], e.index < 1) ∧
      ¬ isPermTruncOf res.rerank res.«recall» := by
  refine ⟨{ «recall» := [toRecallHit ce3hit],
            rerank := [mkRerankFromRecall (toRecallHit ce3hit) (.fin 1),
                       mkRerankFromRecall (toRecallHit ce3hit) (.fin 1)],
            timingsMs := [("embed", 0), ("recall", 0), ("rerank", 0)],
            debugNote := none }, by decide, by decide, ?_⟩
  rintro ⟨idxs, hnd, hb, hmap⟩
  have hlen : idxs.length = 2 := by
    have h2 := congrArg List.length hmap
    simpa using h2.symm
  rcases idxs with _ | ⟨a, rest⟩
  · simp at hlen
  rcases rest with _ | ⟨b, rest2⟩
  · simp at hlen
  rcases rest2 with _ | ⟨c, rest3⟩
  case cons.cons.cons => simp at hlen
  have ha : a < 1 := by simpa using hb a (by simp)
  have hbb : b < 1 := by simpa using hb b (by simp)
  have ha0 : a = 0 := by omega
  have hb0 : b = 0 := by omega
  subst ha0
  subst hb0
  simp at hnd

/-- A well-behaved rerank capability for the C3 witness. -/
def w3fn : List String → List RerankResultM := fun _ => [⟨0, .fin 2, "t"⟩]

/-- Witness for the amended C3 at a concrete one-hit call. -/
theorem rerank_remap_witness :
    ((match (none : Option String) with | some vv => some vv | none => some "v1") =
      some "v1") ∧
    ([ce3hit] ≠ ([] : List ProviderHit)) ∧
    (∀ e ∈ w3fn ([ce3hit].map (fun h => h.chunkText)),
      e.index < ([ce3hit] : List ProviderHit).length) ∧
    (((w3fn ([ce3hit].map (fun h => h.chunkText))).map (fun e => e.index)).Nodup) ∧
    (∃ res, runSearch (some "v1") none [ce3hit] w3fn false 0 0 0 = some res ∧
      res.rerank = (w3fn ([ce3hit].map (fun h => h.chunkText))).map
        (fun e => mkRerankFromRecall (res.«recall».getD e.index defaultRecallHit)
          (safeFloat e.score)) ∧
      isPermTruncOf res.rerank res.«recall») :=
  ⟨rfl, by decide, by decide, by simp [w3fn],
    rerank_remap (some "v1") none "v1" [ce3hit] w3fn false 0 0 0 rfl (by decide)
      (by decide) (by simp [w3fn])⟩

/-! ## C4: vector-store search contract -/

/-- A string free of the key separator. -/
abbrev noColon (s : String) : Prop := ':' ∉ s.data

/-- The filterable string fields as carried by a returned hit (same lookup
as `fieldGet` on the stored record the hit copies). -/
def hitGet (h : SearchHitM) (k : String) : Option String :=
  if k = "chunk_id" then some h.chunkId
  else if k = "project_id" then some h.projectId
  else if k = "file_id" then some h.fileId
  else if k = "parent_id" then some h.parentId
  else if k = "chunk_type" then some h.chunkType
  else if k = "chunk_text" then some h.chunkText
  else if k = "index_version" then some h.indexVersion
  else if k = "doc_hash" then some h.docHash
  else none

/-- A hit's filterable fields are exactly its record's. -/
theorem hitGet_mkHit (sr : ℚ × StoredRec) (k : String) :
    hitGet (mkHit sr) k = fieldGet sr.2 k := by
  unfold hitGet fieldGet mkHit
  split_ifs <;> rfl

/-- Stores reachable by `upsert`: every key is the colon-joined triple of
its own record's project, version and chunk id, and the stored project and
version ids are colon-free. -/
abbrev storeWellFormed (st : Store) : Prop :=
  ∀ kv ∈ st, kv.1 = mkKey kv.2.projectId kv.2.indexVersion kv.2.chunkId ∧
    noColon kv.2.projectId ∧ noColon kv.2.indexVersion

/-- Unique parse of a colon-terminated segment: if a colon-free segment
followed by a colon is a prefix of another such, the segments agree. -/
theorem colon_seg_prefix : ∀ (x y xs ys : List Char), ':' ∉ x → ':' ∉ y →
    (x ++ ':' :: xs) <+: (y ++ ':' :: ys) → x = y ∧ xs <+: ys := by
  intro x
  induction x with
  | nil =>
    intro y xs ys hx hy hp
    cases y with
    | nil => simpa using hp
    | cons c y2 =>
      simp only [List.nil_append, List.cons_append] at hp
      have h1 := (List.cons_prefix_cons.mp hp).1
      exact absurd (h1 ▸ List.mem_cons_self c y2) hy
  | cons a x2 ih =>
    intro y xs ys hx hy hp
    cases y with
    | nil =>
      simp only [List.cons_append, List.nil_append] at hp
      have h1 := (List.cons_prefix_cons.mp hp).1
      exact absurd (h1 ▸ List.mem_cons_self a x2) hx
    | cons c y2 =>
      simp only [List.cons_append] at hp
      obtain ⟨h1, h2⟩ := List.cons_prefix_cons.mp hp
      have hx2 : ':' ∉ x2 := fun hmem => hx (List.mem_cons_of_mem a hmem)
      have hy2 : ':' ∉ y2 := fun hmem => hy (List.mem_cons_of_mem c hmem)
      obtain ⟨h3, h4⟩ := ih y2 xs ys hx2 hy2 h2
      exact ⟨by rw [h1, h3], h4⟩

/-- A search prefix made of colon-free ids matching a well-formed key pins
down the record's project and version. -/
theorem searchPre_scope (p v rp rv rc : String)
    (hp : noColon p) (hv : noColon v) (hrp : noColon rp) (hrv : noColon rv)
    (h : (p ++ ":" ++ v ++ ":").data <+: (mkKey rp rv rc).data) :
    rp = p ∧ rv = v := by
  have hd : (p ++ ":" ++ v ++ ":").data = p.data ++ ':' :: (v.data ++ [':']) := by
    simp [String.data_append]
  have hd2 : (mkKey rp rv rc).data = rp.data ++ ':' :: (rv.data ++ ':' :: rc.data) := by
    simp [mkKey, String.data_append]
  rw [hd, hd2] at h
  obtain ⟨h1, h2⟩ := colon_seg_prefix p.data rp.data (v.data ++ [':'])
    (rv.data ++ ':' :: rc.data) hp hrp h
  have h3 : (v.data ++ ':' :: ([] : List Char)) <+: (rv.data ++ ':' :: rc.data) := by
    simpa using h2
  obtain ⟨h4, _⟩ := colon_seg_prefix v.data rv.data [] rc.data hv hrv h3
  exact ⟨String.ext h1.symm, String.ext h4.symm⟩

/-- Every returned hit comes from a stored record that passed the prefix
and filter checks. -/
theorem vsSearch_mem_origin (sqrtQ : ℚ → ℚ) (st : Store) (vector : List ℚ)
    (topK : Nat) (p v : String) (filters : List (String × String)) :
    ∀ h ∈ vsSearch sqrtQ st vector topK p v filters,
      ∃ kv ∈ st,
        ((p ++ ":" ++ v ++ ":").data.isPrefixOf kv.1.data &&
          filtersMatch kv.2 filters) = true ∧
        ∃ sim : ℚ, h = mkHit (sim, kv.2) := by
  intro h hh
  unfold vsSearch at hh
  dsimp only at hh
  rcases List.mem_map.mp hh with ⟨sr, hsr, rfl⟩
  have hsr2 : sr ∈ (st.filter (fun kv =>
      (p ++ ":" ++ v ++ ":").data.isPrefixOf kv.1.data &&
        filtersMatch kv.2 filters)).map
      (fun kv => (cosineSimQ sqrtQ vector kv.2.vector, kv.2)) := by
    have hsub := (List.take_sublist topK _).subset hsr
    exact ((List.perm_insertionSort _ _).mem_iff).mp hsub
  rcases List.mem_map.mp hsr2 with ⟨kv, hkv, rfl⟩
  have hpred := List.of_mem_filter hkv
  exact ⟨kv, List.mem_of_mem_filter hkv, hpred, cosineSimQ sqrtQ vector kv.2.vector, rfl⟩

/-- C4 (amended): for every well-formed store (keys consistent with the
records, as `upsert` writes them) and colon-free stored and requested ids,
`DefaultVectorStoreAdapter.search` returns at most top_k hits, every hit is
scoped to exactly the requested (project_id, index_version), hits are
sorted by descending cosine similarity, and every supplied filter key looks
up on each returned hit to exactly the filter value.  The colon-freedom
amendment is forced: the adapter scopes by string-prefix match on
`project:version:chunk` keys, so ids containing a colon shift the
separator and let records of another project or version match (see the
counterexample). -/
theorem vs_search_contract (sqrtQ : ℚ → ℚ) (st : Store) (vector : List ℚ)
    (topK : Nat) (p v : String) (filters : List (String × String))
    (hwf : storeWellFormed st) (hp : noColon p) (hv : noColon v) :
    (vsSearch sqrtQ st vector topK p v filters).length ≤ topK ∧
    (∀ h ∈ vsSearch sqrtQ st vector topK p v filters,
      h.projectId = p ∧ h.indexVersion = v) ∧
    List.Sorted (fun a b : SearchHitM => b.score ≤ a.score)
      (vsSearch sqrtQ st vector topK p v filters) ∧
    (∀ h ∈ vsSearch sqrtQ st vector topK p v filters, ∀ fv ∈ filters,
      hitGet h fv.1 = some fv.2) := by
  refine ⟨?_, ?_, ?_, ?_⟩
  · unfold vsSearch
    dsimp only
    rw [List.length_map, List.length_take]
    exact min_le_left _ _
  · intro h hh
    obtain ⟨kv, hkvmem, hpred, sim, rfl⟩ :=
      vsSearch_mem_origin sqrtQ st vector topK p v filters h hh
    obtain ⟨hkey, hrp, hrv⟩ := hwf kv hkvmem
    have hpre : ((p ++ ":" ++ v ++ ":").data.isPrefixOf kv.1.data) = true :=
      (Bool.and_eq_true _ _ ▸ hpred).1
    have hpre2 : (p ++ ":" ++ v ++ ":").data <+: kv.1.data :=
      List.isPrefixOf_iff_prefix.mp hpre
    rw [hkey] at hpre2
    obtain ⟨h1, h2⟩ := searchPre_scope p v kv.2.projectId kv.2.indexVersion
      kv.2.chunkId hp hv hrp hrv hpre2
    exact ⟨h1, h2⟩
  · have hsorted : List.Sorted (fun a b : ℚ × StoredRec => b.1 ≤ a.1)
        (List.insertionSort (fun a b : ℚ × StoredRec => b.1 ≤ a.1)
          ((st.filter (fun kv => (p ++ ":" ++ v ++ ":").data.isPrefixOf kv.1.data &&
            filtersMatch kv.2 filters)).map
            (fun kv => (cosineSimQ sqrtQ vector kv.2.vector, kv.2)))) := by
      haveI : IsTotal (ℚ × StoredRec) (fun a b => b.1 ≤ a.1) :=
        ⟨fun a b => le_total b.1 a.1⟩
      haveI : IsTrans (ℚ × StoredRec) (fun a b => b.1 ≤ a.1) :=
        ⟨fun a b c h1 h2 => le_trans h2 h1⟩
      exact List.sorted_insertionSort _ _
    unfold vsSearch
    dsimp only
    have htake := List.Pairwise.sublist (List.take_sublist topK _) hsorted
    exact List.pairwise_map.mpr htake
  · intro h hh fv hfv
    obtain ⟨kv, hkvmem, hpred, sim, rfl⟩ :=
      vsSearch_mem_origin sqrtQ st vector topK p v filters h hh
    have hfm : filtersMatch kv.2 filters = true := (Bool.and_eq_true _ _ ▸ hpred).2
    rw [hitGet_mkHit]
    have := (List.all_eq_true.mp hfm) fv hfv
    exact eq_of_beq this

/-- A record upserted under project `a`, index version `b:c`. -/
def ce4rec : VRecord :=
  { chunkId := "x", vector := [1], projectId := "a", fileId := "f",
    parentId := "pa", chunkType := "text", chunkText := "t", loc := {},
    indexVersion := "b:c", docHash := "h" }

/-- The store after that single honest upsert. -/
def ce4store : Store := vsUpsert [] [ce4rec]

/-- C4 counterexample: searching project `a`, version `b` (top_k 10, no
filters) returns the record whose index_version is `b:c` — its key
`a:b:c:x` starts with the search prefix `a:b:` — so a record of a different
index version of the same project appears in the results, refuting the
scoping claim as stated. -/
theorem vs_search_scoping_counterexample :
    ((vsSearch (fun _ => 0) ce4store [1] 10 "a" "b" []).map
      (fun h => (h.projectId, h.indexVersion))) = [("a", "b:c")] ∧
    (("b:c" : String) ≠ "b") :=
  ⟨by decide, by decide⟩

/-- A colon-free record for the C4 witness. -/
def w4rec : VRecord :=
  { chunkId := "c1", vector := [1], projectId := "p", fileId := "f",
    parentId := "pa", chunkType := "text", chunkText := "t", loc := {},
    indexVersion := "v1", docHash := "h" }

/-- The witness store. -/
def w4store : Store := vsUpsert [] [w4rec]

/-- Witness for the amended C4 on a one-record store with a chunk-type
filter. -/
theorem vs_search_contract_witness :
    storeWellFormed w4store ∧ noColon "p" ∧ noColon "v1" ∧
    ((vsSearch (fun _ => 0) w4store [1] 5 "p" "v1" [("chunk_type", "text")]).length ≤ 5 ∧
      (∀ h ∈ vsSearch (fun _ => 0) w4store [1] 5 "p" "v1" [("chunk_type", "text")],
        h.projectId = "p" ∧ h.indexVersion = "v1") ∧
      List.Sorted (fun a b : SearchHitM => b.score ≤ a.score)
        (vsSearch (fun _ => 0) w4store [1] 5 "p" "v1" [("chunk_type", "text")]) ∧
      (∀ h ∈ vsSearch (fun _ => 0) w4store [1] 5 "p" "v1" [("chunk_type", "text")],
        ∀ fv ∈ [(("chunk_type" : String), ("text" : String))],
          hitGet h fv.1 = some fv.2)) :=
  ⟨by decide, by decide, by decide,
    vs_search_contract (fun _ => 0) w4store [1] 5 "p" "v1" [("chunk_type", "text")]
      (by decide) (by decide) (by decide)⟩

/-! ## C1 and C2: ingestion idempotency, error capture and rollback -/

/-- Every ingestion call either leaves the parent, chunk, file and
idempotency-log tables exactly as they were (all failure paths roll the
session back; the skip path writes nothing) or reports no error. -/
theorem ingest_cases (env : OrchEnv) (pid : String) (bytes : List Nat)
    (fn st iv : String) (fidArg : Option String) (w : World) :
    ((ingest env pid bytes fn st iv fidArg w).2.db.parents = w.db.parents ∧
     (ingest env pid bytes fn st iv fidArg w).2.db.chunks = w.db.chunks ∧
     (ingest env pid bytes fn st iv fidArg w).2.db.files = w.db.files ∧
     (ingest env pid bytes fn st iv fidArg w).2.db.logs = w.db.logs) ∨
    (ingest env pid bytes fn st iv fidArg w).1.error = none := by
  unfold ingest
  dsimp only
  split
  · right; rfl
  · by_cases hmem : pid ∈ w.db.projects
    · simp only [if_pos hmem]
      split
      · left; exact ⟨rfl, rfl, rfl, rfl⟩
      · split
        · left; exact ⟨rfl, rfl, rfl, rfl⟩
        · split
          · left; exact ⟨rfl, rfl, rfl, rfl⟩
          · split
            · right; rfl
            · left; exact ⟨rfl, rfl, rfl, rfl⟩
    · simp only [if_neg hmem]
      split
      · left; exact ⟨rfl, rfl, rfl, rfl⟩
      · split
        · left; exact ⟨rfl, rfl, rfl, rfl⟩
        · split
          · left; exact ⟨rfl, rfl, rfl, rfl⟩
          · split
            · right; rfl
            · left; exact ⟨rfl, rfl, rfl, rfl⟩

/-- Searching an appended list when the first part has no match. -/
theorem find?_append_none {α : Type} (p : α → Bool) (l1 l2 : List α)
    (h : l1.find? p = none) : (l1 ++ l2).find? p = l2.find? p := by
  induction l1 with
  | nil => rfl
  | cons a l ih =>
    cases hpa : p a with
    | true => rw [List.find?_cons_of_pos _ hpa] at h; cases h
    | false =>
      rw [List.find?_cons_of_neg _ (by simp [hpa])] at h
      rw [List.cons_append, List.find?_cons_of_neg _ (by simp [hpa])]
      exact ih h

/-- A call that finds no idempotency record never reports skipped. -/
theorem ingest_not_skipped (env : OrchEnv) (pid : String) (bytes : List Nat)
    (fn st iv : String) (fidArg : Option String) (w : World)
    (hno : w.db.logs.find? (logMatch pid (env.hash bytes) iv) = none) :
    (ingest env pid bytes fn st iv fidArg w).1.skipped = false := by
  unfold ingest
  dsimp only
  rw [hno]
  dsimp only
  split
  · rfl
  · split
    · rfl
    · split
      · rfl
      · split
        · rfl
        · rfl

/-- A call that finds an idempotency record returns skipped with the
recorded file id and leaves the whole world untouched. -/
theorem ingest_found_skips (env : OrchEnv) (pid : String) (bytes : List Nat)
    (fn st iv : String) (fidArg : Option String) (w : World) (row : LogRow)
    (hfound : w.db.logs.find? (logMatch pid (env.hash bytes) iv) = some row) :
    (ingest env pid bytes fn st iv fidArg w).1.skipped = true ∧
    (ingest env pid bytes fn st iv fidArg w).2 = w := by
  unfold ingest
  dsimp only
  rw [hfound]
  exact ⟨rfl, rfl⟩

/-- A successful fresh ingestion appends exactly one idempotency-log row,
carrying the run's file id and the content hash. -/
theorem ingest_success_logs (env : OrchEnv) (pid : String) (bytes : List Nat)
    (fn st iv : String) (fidArg : Option String) (w : World)
    (hno : w.db.logs.find? (logMatch pid (env.hash bytes) iv) = none)
    (hok : (ingest env pid bytes fn st iv fidArg w).1.error = none) :
    (ingest env pid bytes fn st iv fidArg w).2.db.logs =
      w.db.logs ++ [⟨pid, (ingest env pid bytes fn st iv fidArg w).1.fileId,
        env.hash bytes, iv⟩] := by
  unfold ingest at hok ⊢
  dsimp only at hok ⊢
  rw [hno] at hok ⊢
  dsimp only at hok ⊢
  split at hok
  · simp [errResult] at hok
  · split at hok
    · simp [errResult] at hok
    · split at hok
      · simp [errResult] at hok
      · split at hok
        · next hcommit =>
          simp only [hcommit, if_true]
          by_cases hmem : pid ∈ w.db.projects <;> simp [hmem]
        · simp [errResult] at hok

/-- C1 (amended): for every project, raw bytes, source type and index
version, a first call on a state with no record for (project, doc_hash,
index_version) that completes without error returns skipped = false, and
any second call with byte-identical content for the same triple — whatever
its filename, declared source type or supplied file id — returns
skipped = true and leaves the entire state unchanged: zero new Parent,
Chunk, or vector-store records.  The amendment conditions the second-call
guarantee on the first call succeeding: on a failed first call no
idempotency record is written, so the second call is not skipped (see the
counterexample with an unsupported source type). -/
theorem ingest_idempotent (env : OrchEnv) (pid : String) (bytes : List Nat)
    (fn st iv fn2 st2 : String) (fidArg fidArg2 : Option String) (w : World)
    (hno : w.db.logs.find? (logMatch pid (env.hash bytes) iv) = none)
    (hok : (ingest env pid bytes fn st iv fidArg w).1.error = none) :
    (ingest env pid bytes fn st iv fidArg w).1.skipped = false ∧
    (ingest env pid bytes fn2 st2 iv fidArg2
      (ingest env pid bytes fn st iv fidArg w).2).1.skipped = true ∧
    (ingest env pid bytes fn2 st2 iv fidArg2
      (ingest env pid bytes fn st iv fidArg w).2).2 =
      (ingest env pid bytes fn st iv fidArg w).2 := by
  have hfind : ((ingest env pid bytes fn st iv fidArg w).2).db.logs.find?
      (logMatch pid (env.hash bytes) iv) =
      some ⟨pid, (ingest env pid bytes fn st iv fidArg w).1.fileId,
        env.hash bytes, iv⟩ := by
    rw [ingest_success_logs env pid bytes fn st iv fidArg w hno hok,
      find?_append_none _ _ _ hno]
    simp [List.find?, logMatch]
  have hskip := ingest_found_skips env pid bytes fn2 st2 iv fidArg2
    (ingest env pid bytes fn st iv fidArg w).2 _ hfind
  exact ⟨ingest_not_skipped env pid bytes fn st iv fidArg w hno, hskip.1, hskip.2⟩

/-- C2 (amended): every failing `ingest_file` call reports the failure in
the result (the model is a total function: no exception escapes; the
`except` block maps every fault to an error string), and the session
rollback keeps all parent, chunk, file and idempotency-log rows invisible
to later reads.  The amendment drops the vector half of the claim: the
vector store is not part of the transaction, so vectors upserted before the
failure remain in the store and are observable to search — exactly the gap
the concurrency notes of the specification document (see the
counterexample, where a run that fails at commit leaves its vector behind
while no metadata is visible). -/
theorem ingest_failure_rollback (env : OrchEnv) (pid : String) (bytes : List Nat)
    (fn st iv : String) (fidArg : Option String) (w : World) (e : String)
    (h : (ingest env pid bytes fn st iv fidArg w).1.error = some e) :
    (ingest env pid bytes fn st iv fidArg w).2.db.parents = w.db.parents ∧
    (ingest env pid bytes fn st iv fidArg w).2.db.chunks = w.db.chunks ∧
    (ingest env pid bytes fn st iv fidArg w).2.db.files = w.db.files ∧
    (ingest env pid bytes fn st iv fidArg w).2.db.logs = w.db.logs := by
  rcases ingest_cases env pid bytes fn st iv fidArg w with hc | hc
  · exact hc
  · rw [hc] at h
    cases h

/-- A benign environment: empty parses, constant hash, stub embeddings,
commits succeed. -/
def trivialEnv : OrchEnv :=
  { hash := fun _ => "h", freshFileId := "fid-0",
    pdfParse := fun _ _ => .ok [], pptxParse := fun _ _ => .ok [],
    docxParse := fun _ _ => .ok [],
    policyBuildParents := fun bs stype n => buildParentsSF bs stype n,
    policyBuildChildren := fun p n => buildChildrenSF 280 380 60 p n,
    embed := fun ts => .ok (ts.map (fun _ => [1])),
    ocrEnabled := false, visionEnabled := false,
    ocrText := fun _ => "", vision := fun _ => ⟨"", [], [], none⟩,
    commitOk := true }

/-- The empty initial state. -/
def emptyWorld : World :=
  { db := { projects := [], files := [], parents := [], chunks := [], logs := [] },
    store := [] }

/-- C1 counterexample: with source type `xyz` the first call fails
(`_get_parser` raises, captured as an error result) and writes no
idempotency record, so the byte-identical second call is again not
skipped — the claim's promise that any second call returns skipped = true
is false at this input. -/
theorem ingest_idempotency_counterexample :
    (ingest trivialEnv "p" [0] "f.xyz" "xyz" "v1" none emptyWorld).1.skipped = false ∧
    (ingest trivialEnv "p" [0] "f.xyz" "xyz" "v1" none emptyWorld).1.error =
      some "Unsupported source_type: xyz" ∧
    (ingest trivialEnv "p" [0] "f.xyz" "xyz" "v1" none
      (ingest trivialEnv "p" [0] "f.xyz" "xyz" "v1" none emptyWorld).2).1.skipped = false :=
  ⟨by decide, by decide, by decide⟩

/-- Witness for the amended C1: a successful pdf ingestion followed by a
byte-identical call (different filename) that is skipped with nothing
created. -/
theorem ingest_idempotent_witness :
    (emptyWorld.db.logs.find? (logMatch "p" (trivialEnv.hash [0]) "v1") = none) ∧
    ((ingest trivialEnv "p" [0] "doc.pdf" "pdf" "v1" none emptyWorld).1.error = none) ∧
    ((ingest trivialEnv "p" [0] "doc.pdf" "pdf" "v1" none emptyWorld).1.skipped = false ∧
      (ingest trivialEnv "p" [0] "doc2.pdf" "pdf" "v1" none
        (ingest trivialEnv "p" [0] "doc.pdf" "pdf" "v1" none emptyWorld).2).1.skipped = true ∧
      (ingest trivialEnv "p" [0] "doc2.pdf" "pdf" "v1" none
        (ingest trivialEnv "p" [0] "doc.pdf" "pdf" "v1" none emptyWorld).2).2 =
        (ingest trivialEnv "p" [0] "doc.pdf" "pdf" "v1" none emptyWorld).2) :=
  ⟨by decide, by decide,
    ingest_idempotent trivialEnv "p" [0] "doc.pdf" "pdf" "v1" "doc2.pdf" "pdf" none none
      emptyWorld (by decide) (by decide)⟩

/-- An environment whose final database commit fails after one text chunk
was embedded and upserted. -/
def failEnv : OrchEnv :=
  { trivialEnv with
    commitOk := false,
    pdfParse := fun _ _ => .ok [Block.text "Hello world" { pageNum := some 0 }] }

/-- C2 counterexample: the run fails (error reported, no parent or chunk
rows visible), yet the vector upserted before the commit failure remains in
the vector store and is returned by a search scoped to the same project and
index version — partial vector data from a failed run is observable. -/
theorem ingest_vector_leak_counterexample :
    (ingest failEnv "p" [0] "doc.pdf" "pdf" "v1" none emptyWorld).1.error =
      some "commit failed" ∧
    (ingest failEnv "p" [0] "doc.pdf" "pdf" "v1" none emptyWorld).2.db.chunks = [] ∧
    (ingest failEnv "p" [0] "doc.pdf" "pdf" "v1" none emptyWorld).2.db.parents = [] ∧
    ((vsSearch (fun _ => 0)
        (ingest failEnv "p" [0] "doc.pdf" "pdf" "v1" none emptyWorld).2.store
        [1] 10 "p" "v1" []).map (fun h => (h.chunkId, h.chunkText))) =
      [("1", "Hello world")] :=
  ⟨by decide, by decide, by decide, by decide⟩

/-- Witness for the amended C2 at the unsupported-source-type failure. -/
theorem ingest_failure_rollback_witness :
    ((ingest trivialEnv "p" [0] "f.xyz" "xyz" "v1" none emptyWorld).1.error =
      some "Unsupported source_type: xyz") ∧
    ((ingest trivialEnv "p" [0] "f.xyz" "xyz" "v1" none emptyWorld).2.db.parents =
        emptyWorld.db.parents ∧
      (ingest trivialEnv "p" [0] "f.xyz" "xyz" "v1" none emptyWorld).2.db.chunks =
        emptyWorld.db.chunks ∧
      (ingest trivialEnv "p" [0] "f.xyz" "xyz" "v1" none emptyWorld).2.db.files =
        emptyWorld.db.files ∧
      (ingest trivialEnv "p" [0] "f.xyz" "xyz" "v1" none emptyWorld).2.db.logs =
        emptyWorld.db.logs) :=
  ⟨by decide,
    ingest_failure_rollback trivialEnv "p" [0] "f.xyz" "xyz" "v1" none emptyWorld
      "Unsupported source_type: xyz" (by decide)⟩
